import Mathlib

/-! Arduino coffee / milk / tea dispenser: a shallow embedding of `src/main.cpp`

The sketch is single threaded and talks to its peripherals through blocking
library calls.  It is embedded as explicit state passing over a `Machine`:

* the two globals that change (`accessGranted`, `enteredPassword`),
* the inputs still to come: the results of the successive RFID polls, of the
  successive keypad scans and of the successive ultrasonic measurements,
* the log of every peripheral command issued so far (`trace`).

A finite input list describes a finite observation: after its end no card is
presented, no key is pressed and no further distance is measured.  A blocking
read that finds its list exhausted never returns, which is reported as
`Outcome.blocked` together with the machine state reached.
-/

namespace CoffeeMachine

/-! ## Constants of the sketch -/

/-- Buzzer pin, `#define BUZZER_PIN 46`. -/
def BUZZER_PIN : Nat := 46

/-- Relay of the coffee pump, `const int relayCafe = 13`. -/
def relayCafe : Nat := 13

/-- Relay of the milk pump, `const int relayLait = 12`. -/
def relayLait : Nat := 12

/-- Relay of the tea pump, `const int relayThe = 11`. -/
def relayThe : Nat := 11

/-- Servo pin of the sugar gate, `const int sugarServoPin = 45`. -/
def sugarServoPin : Nat := 45

/-- The value `NO_KEY` of the Keypad library: the character with code 0,
returned by `getKey()` when no key is pressed. -/
def NO_KEY : Char := Char.ofNat 0

/-- Configured PIN, `String password = "1234"`. -/
def password : List Char := ['1', '2', '3', '4']

/-- Configured tag, `byte allowedUID[] = {0x33, 0xBA, 0xDD, 0xA9}`. -/
def allowedUID : List Nat := [0x33, 0xBA, 0xDD, 0xA9]

/-! ## Peripheral commands -/

/-- One command issued to a peripheral, or one assignment to `accessGranted`
(logged so that the position of grants and resets in the run is visible). -/
inductive Event
  | serialBegin (baud : Nat)
  | spiBegin
  | pcdInit
  | servoAttach (pin : Nat)
  | pinModeOutput (pin : Nat)
  | lcdInit
  | lcdBacklight
  | serialPrint (s : String)
  | serialPrintHex (b : Nat)
  | serialPrintln
  | lcdClear
  | lcdSetCursor (col row : Nat)
  | lcdPrint (s : String)
  | lcdPrintChar (c : Char)
  | tone (pin freq : Nat)
  | noTone (pin : Nat)
  | delay (ms : Nat)
  | haltCard
  | servoWrite (angle : Nat)
  | digitalWrite (pin : Nat) (high : Bool)
  | ranging (cm : Int)
  | setAccess (b : Bool)
  deriving DecidableEq, Repr

/-- State of the sketch together with its remaining inputs and its output log. -/
structure Machine where
  /-- Global `bool accessGranted`. -/
  accessGranted : Bool
  /-- Global `String enteredPassword`. -/
  enteredPassword : List Char
  /-- Results of the RFID polls still to come: `some uid` when
  `PICC_IsNewCardPresent() && PICC_ReadCardSerial()` holds and the reader
  exposes `uid` (`rfid.uid.uidByte[0 .. rfid.uid.size)`), `none` otherwise. -/
  cards : List (Option (List Nat))
  /-- Results of the keypad scans still to come (`NO_KEY` for a scan that
  finds no key pressed). -/
  keys : List Char
  /-- Results of the distance measurements still to come, in cm. -/
  dists : List Int
  /-- Commands issued so far, oldest first. -/
  trace : List Event
  deriving DecidableEq, Repr

/-- Result of a routine that may wait for input: it returned (`done`) or it is
still waiting at the end of the observed input (`blocked`). -/
inductive Outcome
  | done (m : Machine)
  | blocked (m : Machine)
  deriving DecidableEq, Repr

/-- Machine state carried by an outcome. -/
def Outcome.machine : Outcome → Machine
  | .done m => m
  | .blocked m => m

/-- Sequencing: the continuation runs only when the first routine returned. -/
def Outcome.bind (o : Outcome) (f : Machine → Outcome) : Outcome :=
  match o with
  | .done m => f m
  | .blocked m => .blocked m

/-- Append commands to the log. -/
def Machine.emit (m : Machine) (es : List Event) : Machine :=
  { m with trace := m.trace ++ es }

/-- The assignment `accessGranted = b;`. -/
def Machine.assignAccess (m : Machine) (b : Bool) : Machine :=
  { m with accessGranted := b, trace := m.trace ++ [Event.setAccess b] }

/-! ## Library calls that read input -/

/-- The call `rfid.PICC_IsNewCardPresent() && rfid.PICC_ReadCardSerial()`: consumes one
poll result; no card once the observation has ended. -/
def pollCard (m : Machine) : Option (List Nat) × Machine :=
  match m.cards with
  | [] => (none, m)
  | c :: cs => (c, { m with cards := cs })

/-- The call `keypad.getKey()`: one non-blocking scan. -/
def getKey (m : Machine) : Char × Machine :=
  match m.keys with
  | [] => (NO_KEY, m)
  | k :: ks => (k, { m with keys := ks })

/-- The loop `while ((waitKey = getKey()) == NO_KEY);` of the Keypad library on
a list of scan results: the first key pressed and the scans after it. -/
def scanForKey : List Char → Option (Char × List Char)
  | [] => none
  | k :: ks => if k = NO_KEY then scanForKey ks else some (k, ks)

/-- The call `keypad.waitForKey()`: blocks until a scan finds a key. -/
def waitForKey (m : Machine) : Option (Char × Machine) :=
  match scanForKey m.keys with
  | none => none
  | some (k, ks) => some (k, { m with keys := ks })

/-! ## UI helper -/

/-- Commands of `displayPrompt()`. -/
def promptEvents : List Event :=
  [.lcdClear, .lcdSetCursor 0 0, .lcdPrint "Scan RFID or",
   .lcdSetCursor 0 1, .lcdPrint "Enter Password"]

/-- The routine `displayPrompt()`. -/
def displayPrompt (m : Machine) : Machine :=
  m.emit promptEvents

/-- The routine `setup()`. -/
def setup (m : Machine) : Machine :=
  displayPrompt (m.emit
    [.serialBegin 9600, .spiBegin, .pcdInit,
     .servoAttach sugarServoPin, .servoWrite 90,
     .pinModeOutput BUZZER_PIN, .pinModeOutput relayCafe,
     .pinModeOutput relayLait, .pinModeOutput relayThe,
     .lcdInit, .lcdBacklight])

/-! ## Authentication -/

/-- The read `allowedUID[i]`.  The array has four elements; an index past its
end reads the bytes that follow it in memory, given by `ram` (`ram i` is the
byte at offset `i` from the start of the array). -/
def allowedUIDAt (ram : Nat → Nat) (i : Nat) : Nat :=
  match allowedUID.get? i with
  | some b => b
  | none => ram i

/-- The loop `for (byte i = 0; i < rfid.uid.size; i++)` of `checkAccess`, from
index `i` on: the list holds `uidByte[i .. size)`. -/
def uidLoop (ram : Nat → Nat) : List Nat → Nat → Bool → Machine → Bool × Machine
  | [], _, authorized, m => (authorized, m)
  | b :: rest, i, authorized, m =>
    let m1 := m.emit [.serialPrint (if b < 0x10 then " 0" else " "), .serialPrintHex b]
    uidLoop ram rest (i + 1) (if b ≠ allowedUIDAt ram i then false else authorized) m1

/-- Commands of the denial feedback: message, one second of tone, 1.4 s of
silence. -/
def deniedEvents : List Event :=
  [.lcdClear, .lcdPrint "Access Denied", .tone BUZZER_PIN 2000, .delay 1000,
   .noTone BUZZER_PIN, .delay 1400]

/-- The routine `checkPassword()`. -/
def checkPassword (m : Machine) : Machine :=
  let (key, m1) := getKey m
  if key = NO_KEY then m1
  else if key = '#' then
    if m1.enteredPassword = password then
      let m2 := (m1.assignAccess true).emit [.lcdClear, .lcdPrint "Access Granted"]
      let m3 := { m2 with enteredPassword := [] }
      m3.emit [.delay 2000, .lcdClear]
    else
      let m2 := m1.emit [.lcdClear, .lcdPrint "Access Denied"]
      let m3 := { m2 with enteredPassword := [] }
      displayPrompt (m3.emit [.tone BUZZER_PIN 2000, .delay 1000, .noTone BUZZER_PIN, .delay 1400])
  else if key = '*' then
    displayPrompt { m1 with enteredPassword := [] }
  else
    let m2 := { m1 with enteredPassword := m1.enteredPassword ++ [key] }
    m2.emit ([.lcdClear, .lcdSetCursor 6 1] ++
      List.replicate m2.enteredPassword.length (.lcdPrintChar '*'))

/-- The routine `checkAccess()`: one authentication tick. -/
def checkAccess (ram : Nat → Nat) (m : Machine) : Machine :=
  match pollCard m with
  | (some uid, m1) =>
    let m2 := m1.emit [.serialPrint "RFID UID:"]
    let (authorized, m3) := uidLoop ram uid 0 true m2
    let m4 := m3.emit [.serialPrintln]
    let m5 :=
      if authorized then
        (m4.assignAccess true).emit [.lcdClear, .lcdPrint "Access Granted", .delay 2000, .lcdClear]
      else
        displayPrompt (m4.emit deniedEvents)
    m5.emit [.haltCard]
  | (none, m1) => checkPassword m1

/-! ## Peripherals of the dispense session -/

/-- The routine `isGlassPresent()`: one measurement, a 100 ms pause, and the
test `distance < 3`.  No result once the observation has ended. -/
def isGlassPresent (m : Machine) : Option (Bool × Machine) :=
  match m.dists with
  | [] => none
  | d :: ds => some (decide (d < 3), ({ m with dists := ds }).emit [.ranging d, .delay 100])

/-- The loop `do { lcd.clear(); lcd.print("Place a glass"); } while (!isGlassPresent());`
shared by the four drink routines.  The fuel bounds the number of iterations;
`awaitGlass` supplies more than the loop can use. -/
def awaitGlassFuel : Nat → Machine → Outcome
  | 0, m => .blocked m
  | fuel + 1, m =>
    let m1 := m.emit [.lcdClear, .lcdPrint "Place a glass"]
    match isGlassPresent m1 with
    | none => .blocked m1
    | some (true, m2) => .done m2
    | some (false, m2) => awaitGlassFuel fuel m2

/-- The cup-wait loop with enough fuel for every measurement still to come. -/
def awaitGlass (m : Machine) : Outcome :=
  awaitGlassFuel (m.dists.length + 1) m

/-- The first loop of `addSugar()`, `for (int i = 0; i < 3; i++)`, with
`attempts` iterations left: the selected quantity (0 when the loop ends
without a `break`). -/
def sugarSelect : Nat → Machine → Option (Nat × Machine)
  | 0, m => some (0, m)
  | attempts + 1, m =>
    match waitForKey m with
    | none => none
    | some (key, m1) =>
      if '0' ≤ key ∧ key ≤ '3' then some (key.toNat - '0'.toNat, m1)
      else sugarSelect attempts m1

/-- The second loop of `addSugar()`, `for (int i = 0; i < sugarQty; i++)`, with
`n` iterations left. -/
def sugarGate : Nat → Machine → Machine
  | 0, m => m
  | n + 1, m => sugarGate n (m.emit [.servoWrite 180, .delay 500, .servoWrite 0, .delay 500])

/-- The routine `addSugar()`. -/
def addSugar (m : Machine) : Outcome :=
  let m1 := m.emit [.lcdClear, .lcdPrint "Sugar Qty (0-3):"]
  match sugarSelect 3 m1 with
  | none => .blocked { m1 with keys := [] }
  | some (sugarQty, m2) => .done (sugarGate sugarQty m2)

/-! ## Drink routines -/

/-- Commands of one pump step: message, relay on, two seconds, relay off. -/
def pumpEvents (msg : String) (relay : Nat) : List Event :=
  [.lcdClear, .lcdPrint msg, .digitalWrite relay true, .delay 2000, .digitalWrite relay false]

/-- The statements `accessGranted = false; displayPrompt();` closing each drink routine. -/
def sessionReset (m : Machine) : Machine :=
  displayPrompt (m.assignAccess false)

/-- The routine `pourCafe()`. -/
def pourCafe (m : Machine) : Outcome :=
  (awaitGlass m).bind fun m1 =>
  (addSugar (m1.emit [.lcdClear, .lcdPrint "Adding Sugar..."])).bind fun m2 =>
  .done (sessionReset (m2.emit (pumpEvents "Pouring Cafe..." relayCafe)))

/-- The routine `pourCafeAuLait()`. -/
def pourCafeAuLait (m : Machine) : Outcome :=
  (awaitGlass m).bind fun m1 =>
  (addSugar (m1.emit [.lcdClear, .lcdPrint "Adding Sugar..."])).bind fun m2 =>
  .done (sessionReset ((m2.emit (pumpEvents "Pouring Cafe..." relayCafe)).emit
    (pumpEvents "Pouring Lait..." relayLait)))

/-- The routine `pourThe()`. -/
def pourThe (m : Machine) : Outcome :=
  (awaitGlass m).bind fun m1 =>
  (addSugar (m1.emit [.lcdClear, .lcdPrint "Adding Sugar..."])).bind fun m2 =>
  .done (sessionReset (m2.emit (pumpEvents "Pouring The..." relayThe)))

/-- The routine `pourTheAuLait()`. -/
def pourTheAuLait (m : Machine) : Outcome :=
  (awaitGlass m).bind fun m1 =>
  (addSugar (m1.emit [.lcdClear, .lcdPrint "Adding Sugar..."])).bind fun m2 =>
  .done (sessionReset ((m2.emit (pumpEvents "Pouring The..." relayThe)).emit
    (pumpEvents "Pouring Lait..." relayLait)))

/-! ## Menu and main loop -/

/-- Commands that draw the menu. -/
def menuEvents : List Event :=
  [.lcdClear, .lcdPrint "1:Cafe 2:C-Lait", .lcdSetCursor 0 1, .lcdPrint "3:The  4:T-Lait"]

/-- The routine `showMenu()`.  The fuel bounds the depth of the recursive call
in the `default` branch; `showMenu` supplies more than the keys still to come
can use. -/
def showMenuFuel : Nat → Machine → Outcome
  | 0, m => .blocked m
  | fuel + 1, m =>
    let m1 := m.emit menuEvents
    match waitForKey m1 with
    | none => .blocked { m1 with keys := [] }
    | some (key, m2) =>
      if key = '1' then pourCafe m2
      else if key = '2' then pourCafeAuLait m2
      else if key = '3' then pourThe m2
      else if key = '4' then pourTheAuLait m2
      else showMenuFuel fuel (m2.emit [.lcdClear, .lcdPrint "Invalid choice", .delay 2000])

/-- The routine `showMenu()` with enough fuel for every key still to come. -/
def showMenu (m : Machine) : Outcome :=
  showMenuFuel (m.keys.length + 1) m

/-- The routine `loop()`: one iteration of the main loop. -/
def loop (ram : Nat → Nat) (m : Machine) : Outcome :=
  if !m.accessGranted then .done (checkAccess ram m) else showMenu m

/-- The main loop for `n` iterations, stopping early where an iteration blocks. -/
def run (ram : Nat → Nat) : Nat → Machine → Outcome
  | 0, m => .done m
  | n + 1, m => (loop ram m).bind (run ram n)

/-- The machine at power-up, before `setup()`: globals at their initialisers. -/
def powerUp (cards : List (Option (List Nat))) (keys : List Char) (dists : List Int) : Machine :=
  { accessGranted := false, enteredPassword := [], cards := cards, keys := keys,
    dists := dists, trace := [] }

/-- The machine when the main loop is entered. -/
def boot (cards : List (Option (List Nat))) (keys : List Char) (dists : List Int) : Machine :=
  setup (powerUp cards keys dists)

/-! ## Vocabulary of the properties -/

/-- Serial output of the UID loop of `checkAccess`: two prints per byte. -/
def serialEvents (u : List Nat) : List Event :=
  u.flatMap fun b => [.serialPrint (if b < 0x10 then " 0" else " "), .serialPrintHex b]

/-- Commands of a grant on the RFID path, from the assignment on. -/
def grantedEvents : List Event :=
  [.setAccess true, .lcdClear, .lcdPrint "Access Granted", .delay 2000, .lcdClear]

/-- Every byte of the UID equals the byte that `checkAccess` reads from
`allowedUID` at the same index. -/
def UidAccepted (ram : Nat → Nat) (u : List Nat) : Prop :=
  ∀ j (h : j < u.length), u.get ⟨j, h⟩ = allowedUIDAt ram j

/-- A locked machine with the digits 1 2 typed, about to read the tag `uid`. -/
def typed12 (uid : List Nat) : Machine :=
  { accessGranted := false, enteredPassword := ['1', '2'], cards := [some uid],
    keys := [], dists := [], trace := [] }

/-- A locked machine holding the digits `s`, with the submit key pressed. -/
def submitting (s : List Char) : Machine :=
  { accessGranted := false, enteredPassword := s, cards := [],
    keys := ['#'], dists := [], trace := [] }

/-- Commands that move an actuator: a relay write or a servo write. -/
def Event.isActuation : Event → Bool
  | .digitalWrite _ _ => true
  | .servoWrite _ => true
  | _ => false

/-- Assignments to `accessGranted`. -/
def Event.isAssign : Event → Bool
  | .setAccess _ => true
  | _ => false

/-- Value of `accessGranted` after an event, given its value `g` before. -/
def Event.flag (g : Bool) : Event → Bool
  | .setAccess b => b
  | _ => g

/-- Value of `accessGranted` after a run of events, given its value before. -/
def flagAfter : Bool → List Event → Bool
  | g, [] => g
  | g, e :: es => flagAfter (e.flag g) es

/-- Every actuator command of the run is issued while `accessGranted` is true. -/
def gated : Bool → List Event → Bool
  | _, [] => true
  | g, e :: es => (!e.isActuation || g) && gated (e.flag g) es

/-- The common shape of the four drink routines: wait for the cup, add sugar,
issue the pump commands `es`, reset the session. -/
def pourWith (es : List Event) (m : Machine) : Outcome :=
  (awaitGlass m).bind fun m1 =>
  (addSugar (m1.emit [.lcdClear, .lcdPrint "Adding Sugar..."])).bind fun m2 =>
  .done (sessionReset (m2.emit es))

/-- Step from `m` to `m1`: the log grows by events that respect the gate, and
the logged assignments account for the value of `accessGranted`. -/
def Safe (m m1 : Machine) : Prop :=
  ∃ evs, m1.trace = m.trace ++ evs ∧ gated m.accessGranted evs = true ∧
    flagAfter m.accessGranted evs = m1.accessGranted

/-- Keys pressed in a list of scan results: the scans that found a key. -/
def presses (ks : List Char) : List Char :=
  ks.filter fun k => k ≠ NO_KEY

/-- The test `key >= '0' && key <= '3'` of `addSugar`. -/
def isSugarKey (k : Char) : Bool :=
  decide ('0' ≤ k ∧ k ≤ '3')

/-- The keys `1` to `4`, the cases of the `switch` of `showMenu` that pour. -/
def isMenuKey (k : Char) : Bool :=
  k = '1' || k = '2' || k = '3' || k = '4'

/-- Display and measurement commands of the cup-wait loop, one round per reading. -/
def placeEvents (ds : List Int) : List Event :=
  ds.flatMap fun d => [.lcdClear, .lcdPrint "Place a glass", .ranging d, .delay 100]

/-- Commands of `n` open/close cycles of the sugar gate. -/
def sugarCycles : Nat → List Event
  | 0 => []
  | n + 1 => [.servoWrite 180, .delay 500, .servoWrite 0, .delay 500] ++ sugarCycles n

/-- The first loop of `addSugar()` on the scan list alone: the quantity and
the scans left. -/
def sugarPick : Nat → List Char → Option (Nat × List Char)
  | 0, ks => some (0, ks)
  | attempts + 1, ks =>
    match scanForKey ks with
    | none => none
    | some (key, rest) =>
      if '0' ≤ key ∧ key ≤ '3' then some (key.toNat - '0'.toNat, rest)
      else sugarPick attempts rest

/-- The three pumps. -/
inductive Pump
  | cafe
  | lait
  | the
  deriving DecidableEq, Repr

/-- Relay pin of a pump. -/
def Pump.relay : Pump → Nat
  | .cafe => relayCafe
  | .lait => relayLait
  | .the => relayThe

/-- Message shown while a pump runs. -/
def Pump.message : Pump → String
  | .cafe => "Pouring Cafe..."
  | .lait => "Pouring Lait..."
  | .the => "Pouring The..."

/-- Recipe of each menu key as the specification lists it: Coffee, Coffee then
Milk, Tea, Tea then Milk. -/
def recipe (c : Char) : List Pump :=
  if c = '1' then [.cafe]
  else if c = '2' then [.cafe, .lait]
  else if c = '3' then [.the]
  else if c = '4' then [.the, .lait]
  else []

/-- Commands of a recipe: for each pump in order its message, relay on, 2000 ms,
relay off. -/
def recipeEvents (r : List Pump) : List Event :=
  r.flatMap fun p => pumpEvents p.message p.relay

/-- Commands of `n` rejected menu keys: each time the message, two seconds, and
the menu again. -/
def invalidRounds : Nat → List Event
  | 0 => []
  | n + 1 => [.lcdClear, .lcdPrint "Invalid choice", .delay 2000] ++ menuEvents ++ invalidRounds n

/-- Commands of one complete dispense session: menu, `n` rejected keys, the cup
wait over the readings `ds`, `q` sugar cycles, the recipe of `c`, the reset. -/
def sessionEvents (n : Nat) (c : Char) (ds : List Int) (q : Nat) : List Event :=
  menuEvents ++ invalidRounds n ++ (placeEvents ds ++
    [.lcdClear, .lcdPrint "Adding Sugar...", .lcdClear, .lcdPrint "Sugar Qty (0-3):"] ++
    sugarCycles q ++ recipeEvents (recipe c) ++ Event.setAccess false :: promptEvents)

/-- A machine inside an authenticated session, about to show the menu. -/
def atMenu (keys : List Char) (dists : List Int) : Machine :=
  { accessGranted := true, enteredPassword := [], cards := [], keys := keys,
    dists := dists, trace := [] }

/-- Servo angles written by a run of commands, in order. -/
def servoWrites : List Event → List Nat
  | [] => []
  | .servoWrite angle :: es => angle :: servoWrites es
  | _ :: es => servoWrites es

/-- Commands of a session before the pumps: menu, `n` rejected keys, the cup
wait over the readings `ds`, and `q` sugar cycles. -/
def preparation (n : Nat) (ds : List Int) (q : Nat) : List Event :=
  menuEvents ++ invalidRounds n ++ (placeEvents ds ++
    [.lcdClear, .lcdPrint "Adding Sugar...", .lcdClear, .lcdPrint "Sugar Qty (0-3):"] ++
    sugarCycles q)

/-- Verdict messages among a run of commands: how often "Access Granted" and
"Access Denied" are printed. -/
def verdicts (es : List Event) : Nat × Nat :=
  (es.count (.lcdPrint "Access Granted"), es.count (.lcdPrint "Access Denied"))

/-- A locked machine holding the digits `s`, about to scan the keys `keys`
with no tag in reach. -/
def typing (s : List Char) (keys : List Char) : Machine :=
  { accessGranted := false, enteredPassword := s, cards := [], keys := keys,
    dists := [], trace := [] }

/-- Commands of a tick of `checkAccess` that reads the allowed tag. -/
def tagGrantEvents : List Event :=
  Event.serialPrint "RFID UID:" :: serialEvents allowedUID ++
    Event.serialPrintln :: grantedEvents ++ [Event.haltCard]

/-- Actuator commands of a run of commands, in order: the relay and servo writes. -/
def actuations (es : List Event) : List Event :=
  es.filter Event.isActuation

/-! ## Basic facts -/

@[simp] theorem emit_trace (m : Machine) (es : List Event) :
    (m.emit es).trace = m.trace ++ es := rfl

@[simp] theorem emit_accessGranted (m : Machine) (es : List Event) :
    (m.emit es).accessGranted = m.accessGranted := rfl

@[simp] theorem emit_enteredPassword (m : Machine) (es : List Event) :
    (m.emit es).enteredPassword = m.enteredPassword := rfl

@[simp] theorem emit_keys (m : Machine) (es : List Event) : (m.emit es).keys = m.keys := rfl

@[simp] theorem emit_cards (m : Machine) (es : List Event) : (m.emit es).cards = m.cards := rfl

@[simp] theorem emit_dists (m : Machine) (es : List Event) : (m.emit es).dists = m.dists := rfl

theorem emit_emit (m : Machine) (a b : List Event) : (m.emit a).emit b = m.emit (a ++ b) := by
  simp [Machine.emit, List.append_assoc]

/-! ## The RFID path of `checkAccess` -/

/-- Verdict of the UID loop: the flag survives exactly when every remaining
byte equals the byte read from `allowedUID` at its index. -/
theorem uidLoop_fst (ram : Nat → Nat) (u : List Nat) :
    ∀ (i : Nat) (a : Bool) (m : Machine),
      (uidLoop ram u i a m).1 = true ↔
        a = true ∧ ∀ j (h : j < u.length), u.get ⟨j, h⟩ = allowedUIDAt ram (i + j) := by
  induction u with
  | nil => intro i a m; simp [uidLoop]
  | cons b rest ih =>
    intro i a m
    simp only [uidLoop]
    rw [ih]
    constructor
    · rintro ⟨h1, h2⟩
      by_cases hb : b = allowedUIDAt ram i
      · simp [hb] at h1
        refine ⟨h1, ?_⟩
        intro j hj
        cases j with
        | zero => simpa using hb
        | succ j =>
          have := h2 j (by simpa using hj)
          simpa [Nat.add_assoc, Nat.add_comm 1 j] using this
      · simp [hb] at h1
    · rintro ⟨h1, h2⟩
      have hb : b = allowedUIDAt ram i := by simpa using h2 0 (by simp)
      refine ⟨by simp [hb, h1], ?_⟩
      intro j hj
      have := h2 (j + 1) (by simpa using hj)
      simpa [Nat.add_assoc, Nat.add_comm 1 j] using this

/-- The UID loop changes nothing but the serial log. -/
theorem uidLoop_snd (ram : Nat → Nat) (u : List Nat) :
    ∀ (i : Nat) (a : Bool) (m : Machine),
      (uidLoop ram u i a m).2 = m.emit (serialEvents u) := by
  induction u with
  | nil => intro i a m; simp [uidLoop, serialEvents, Machine.emit]
  | cons b rest ih =>
    intro i a m
    simp only [uidLoop]
    rw [ih, emit_emit]
    simp [serialEvents]

/-- A tick that reads an accepted UID: the whole resulting state. -/
theorem checkAccess_card_granted (ram : Nat → Nat) (m : Machine) (u : List Nat)
    (cs : List (Option (List Nat))) (hc : m.cards = some u :: cs) (hu : UidAccepted ram u) :
    checkAccess ram m =
      { accessGranted := true, enteredPassword := m.enteredPassword, cards := cs,
        keys := m.keys, dists := m.dists,
        trace := m.trace ++ (Event.serialPrint "RFID UID:" :: serialEvents u ++
          Event.serialPrintln :: grantedEvents ++ [Event.haltCard]) } := by
  have h1 : (uidLoop ram u 0 true (({ m with cards := cs } : Machine).emit
      [Event.serialPrint "RFID UID:"])).1 = true := by
    rw [uidLoop_fst]; exact ⟨rfl, by simpa [UidAccepted] using hu⟩
  have h2 := uidLoop_snd ram u 0 true (({ m with cards := cs } : Machine).emit
      [Event.serialPrint "RFID UID:"])
  unfold checkAccess pollCard
  rw [hc]
  simp only []
  generalize uidLoop ram u 0 true _ = r at h1 h2
  obtain ⟨a, m3⟩ := r
  simp only at h1 h2
  subst h1 h2
  simp [Machine.emit, Machine.assignAccess, grantedEvents]

/-- A tick that reads a rejected UID: the whole resulting state. -/
theorem checkAccess_card_denied (ram : Nat → Nat) (m : Machine) (u : List Nat)
    (cs : List (Option (List Nat))) (hc : m.cards = some u :: cs) (hu : ¬ UidAccepted ram u) :
    checkAccess ram m =
      { accessGranted := m.accessGranted, enteredPassword := m.enteredPassword, cards := cs,
        keys := m.keys, dists := m.dists,
        trace := m.trace ++ (Event.serialPrint "RFID UID:" :: serialEvents u ++
          Event.serialPrintln :: deniedEvents ++ promptEvents ++ [Event.haltCard]) } := by
  have h1 : (uidLoop ram u 0 true (({ m with cards := cs } : Machine).emit
      [Event.serialPrint "RFID UID:"])).1 = false := by
    rw [← Bool.not_eq_true, uidLoop_fst]
    intro h; exact hu (by simpa [UidAccepted] using h.2)
  have h2 := uidLoop_snd ram u 0 true (({ m with cards := cs } : Machine).emit
      [Event.serialPrint "RFID UID:"])
  unfold checkAccess pollCard
  rw [hc]
  simp only []
  generalize uidLoop ram u 0 true _ = r at h1 h2
  obtain ⟨a, m3⟩ := r
  simp only at h1 h2
  subst h1 h2
  simp [Machine.emit, displayPrompt]

/-- A tick on which no tag is read runs the keypad path. -/
theorem checkAccess_no_card (ram : Nat → Nat) (m : Machine)
    (hc : m.cards = [] ∨ ∃ cs, m.cards = none :: cs) :
    checkAccess ram m = checkPassword { m with cards := m.cards.tail } := by
  unfold checkAccess pollCard
  rcases hc with hc | ⟨cs, hc⟩
  · rw [hc]; simp only []
    congr
    cases m; simp_all
  · rw [hc]; simp

/-- C1 (the code departs from the claim): an RFID tick of `checkAccess` grants
access to a UID that is shorter than the configured four bytes, namely to the
two-byte UID 33 BA and to the empty UID, because the loop compares only the
bytes the tag supplies and never the lengths; and it grants access to the
seven-byte UID that continues 33 BA DD A9 with the three bytes stored after
`allowedUID`.  The claim requires Denied for each of them. -/
theorem checkAccess_grants_wrong_length (ram : Nat → Nat) :
    (checkAccess ram (typed12 [0x33, 0xBA])).accessGranted = true ∧
    (checkAccess ram (typed12 [])).accessGranted = true ∧
    (checkAccess ram (typed12 [0x33, 0xBA, 0xDD, 0xA9, ram 4, ram 5, ram 6])).accessGranted
      = true ∧
    [0x33, 0xBA] ≠ allowedUID ∧ ([] : List Nat) ≠ allowedUID ∧
    [0x33, 0xBA, 0xDD, 0xA9, ram 4, ram 5, ram 6] ≠ allowedUID := by
  refine ⟨rfl, rfl, ?_, by decide, by decide, by simp [allowedUID]⟩
  simp [checkAccess, pollCard, typed12, uidLoop, allowedUIDAt, allowedUID,
    Machine.assignAccess, Machine.emit]

/-! ## The keypad path -/

/-- C2: when the submit key `#` is read by `checkPassword` on a locked
machine, access is granted if and only if the accumulated keys equal the
configured password "1234" exactly; on equality "Access Granted" is shown, and
for every other content "Access Denied" is shown, the idle prompt returns and
`accessGranted` stays false. -/
theorem checkPassword_submit (m : Machine) (ks : List Char)
    (hkey : m.keys = '#' :: ks) (hlocked : m.accessGranted = false) :
    ((checkPassword m).accessGranted = true ↔ m.enteredPassword = password) ∧
    (m.enteredPassword = password →
      (checkPassword m).trace = m.trace ++
        [.setAccess true, .lcdClear, .lcdPrint "Access Granted", .delay 2000, .lcdClear]) ∧
    (m.enteredPassword ≠ password →
      (checkPassword m).accessGranted = false ∧
      (checkPassword m).trace = m.trace ++ deniedEvents ++ promptEvents) := by
  have hne : ¬ ('#' = NO_KEY) := by decide
  by_cases hp : m.enteredPassword = password
  · simp [checkPassword, getKey, hkey, hne, hp, Machine.assignAccess, Machine.emit]
  · simp [checkPassword, getKey, hkey, hne, hp, hlocked, Machine.emit, displayPrompt,
      deniedEvents]

/-- Instance of C2: the digits 1 2 3 4 followed by `#` grant access, and the
proper initial segment 1 2 3 followed by `#` does not. -/
theorem checkPassword_submit_witness :
    (checkPassword (submitting ['1', '2', '3', '4'])).accessGranted = true ∧
    (checkPassword (submitting ['1', '2', '3'])).accessGranted = false :=
  ⟨(checkPassword_submit (submitting ['1', '2', '3', '4']) [] rfl rfl).1.2 rfl,
   ((checkPassword_submit (submitting ['1', '2', '3']) [] rfl rfl).2.2 (by decide)).1⟩

/-! ## Access gating -/

theorem flagAfter_append (g : Bool) (a b : List Event) :
    flagAfter g (a ++ b) = flagAfter (flagAfter g a) b := by
  induction a generalizing g with
  | nil => rfl
  | cons e es ih => simp [flagAfter, ih]

theorem gated_append (g : Bool) (a b : List Event) :
    gated g (a ++ b) = (gated g a && gated (flagAfter g a) b) := by
  induction a generalizing g with
  | nil => simp [gated, flagAfter]
  | cons e es ih => simp [gated, flagAfter, ih, Bool.and_assoc]

theorem flagAfter_of_noAssign (g : Bool) (es : List Event)
    (h : ∀ e ∈ es, e.isAssign = false) : flagAfter g es = g := by
  induction es with
  | nil => rfl
  | cons e es ih =>
    have he : e.flag g = g := by
      have := h e (by simp)
      cases e <;> simp_all [Event.flag, Event.isAssign]
    simp only [flagAfter, he]
    exact ih (fun x hx => h x (by simp [hx]))

theorem gated_of_quiet (g : Bool) (es : List Event)
    (h : ∀ e ∈ es, e.isActuation = false) : gated g es = true := by
  induction es generalizing g with
  | nil => rfl
  | cons e es ih =>
    simp only [gated, h e (by simp), Bool.not_false, Bool.true_or, Bool.true_and]
    exact ih _ (fun x hx => h x (by simp [hx]))

theorem gated_true_of_noAssign (es : List Event)
    (h : ∀ e ∈ es, e.isAssign = false) : gated true es = true := by
  induction es with
  | nil => rfl
  | cons e es ih =>
    have he : e.flag true = true := by
      have := h e (by simp)
      cases e <;> simp_all [Event.flag, Event.isAssign]
    simp only [gated, he, Bool.or_true, Bool.true_and]
    exact ih (fun x hx => h x (by simp [hx]))

theorem Safe.refl (m : Machine) : Safe m m := ⟨[], by simp, rfl, rfl⟩

theorem Safe.of_eq {m m1 : Machine} (ht : m1.trace = m.trace)
    (ha : m1.accessGranted = m.accessGranted) : Safe m m1 :=
  ⟨[], by simp [ht], rfl, by simp [flagAfter, ha]⟩

theorem Safe.trans {a b c : Machine} (h1 : Safe a b) (h2 : Safe b c) : Safe a c := by
  obtain ⟨e1, t1, g1, f1⟩ := h1
  obtain ⟨e2, t2, g2, f2⟩ := h2
  refine ⟨e1 ++ e2, by rw [t2, t1, List.append_assoc], ?_, ?_⟩
  · rw [gated_append, g1, f1, g2]; rfl
  · rw [flagAfter_append, f1, f2]

theorem Safe.emit_quiet (m : Machine) (es : List Event)
    (h : ∀ e ∈ es, e.isActuation = false ∧ e.isAssign = false) : Safe m (m.emit es) :=
  ⟨es, rfl, gated_of_quiet _ _ (fun e he => (h e he).1),
    flagAfter_of_noAssign _ _ (fun e he => (h e he).2)⟩

theorem Safe.emit_open (m : Machine) (es : List Event) (hg : m.accessGranted = true)
    (h : ∀ e ∈ es, e.isAssign = false) : Safe m (m.emit es) :=
  ⟨es, rfl, by rw [hg]; exact gated_true_of_noAssign _ h, flagAfter_of_noAssign _ _ h⟩

theorem Safe.assign (m : Machine) (b : Bool) : Safe m (m.assignAccess b) :=
  ⟨[.setAccess b], rfl, by simp [gated, Event.isActuation], by simp [flagAfter, Event.flag, Machine.assignAccess]⟩

theorem serialEvents_quiet (u : List Nat) :
    ∀ e ∈ serialEvents u, e.isActuation = false ∧ e.isAssign = false := by
  intro e he
  simp only [serialEvents, List.mem_flatMap] at he
  obtain ⟨b, -, hb⟩ := he
  simp at hb
  rcases hb with rfl | rfl <;> exact ⟨rfl, rfl⟩

theorem checkPassword_safe (m : Machine) : Safe m (checkPassword m) := by
  unfold checkPassword getKey
  rcases hk : m.keys with _ | ⟨k, ks⟩
  · simp only []; simp only [if_true]; exact Safe.refl m
  · simp only []
    split_ifs with h1 h2 h3 h4
    · exact Safe.of_eq rfl rfl
    · refine ⟨[.setAccess true, .lcdClear, .lcdPrint "Access Granted", .delay 2000, .lcdClear],
        by simp [Machine.emit, Machine.assignAccess], by simp [gated, Event.isActuation, Event.flag], by simp [flagAfter, Event.flag, Machine.emit, Machine.assignAccess]⟩
    · refine ⟨deniedEvents ++ promptEvents, by simp [Machine.emit, displayPrompt, deniedEvents], ?_, ?_⟩
      · exact gated_of_quiet _ _ (by decide)
      · exact flagAfter_of_noAssign _ _ (by decide)
    · refine ⟨promptEvents, by simp [Machine.emit, displayPrompt], ?_, ?_⟩
      · exact gated_of_quiet _ _ (by decide)
      · exact flagAfter_of_noAssign _ _ (by decide)
    · refine ⟨_, rfl, ?_, ?_⟩
      · apply gated_of_quiet
        intro e he
        simp at he
        rcases he with rfl | rfl | ⟨-, rfl⟩ <;> rfl
      · apply flagAfter_of_noAssign
        intro e he
        simp at he
        rcases he with rfl | rfl | ⟨-, rfl⟩ <;> rfl

theorem checkAccess_safe (ram : Nat → Nat) (m : Machine) : Safe m (checkAccess ram m) := by
  rcases hc : m.cards with _ | ⟨c, cs⟩
  · rw [checkAccess_no_card ram m (Or.inl hc)]
    exact Safe.trans (Safe.of_eq rfl rfl) (checkPassword_safe _)
  · cases c with
    | none =>
      rw [checkAccess_no_card ram m (Or.inr ⟨cs, hc⟩)]
      exact Safe.trans (Safe.of_eq rfl rfl) (checkPassword_safe _)
    | some u =>
      by_cases hu : UidAccepted ram u
      · rw [checkAccess_card_granted ram m u cs hc hu]
        have h1 : ∀ g, flagAfter g (serialEvents u) = g := fun g =>
          flagAfter_of_noAssign _ _ (fun e he => (serialEvents_quiet u e he).2)
        have h2 : ∀ g, gated g (serialEvents u) = true := fun g =>
          gated_of_quiet _ _ (fun e he => (serialEvents_quiet u e he).1)
        refine ⟨_, rfl, ?_, ?_⟩
        · simp [gated_append, flagAfter_append, gated, flagAfter, grantedEvents, h1, h2,
            Event.flag, Event.isActuation]
        · simp [flagAfter_append, flagAfter, grantedEvents, h1, Event.flag]
      · rw [checkAccess_card_denied ram m u cs hc hu]
        refine ⟨_, rfl, ?_, ?_⟩
        · apply gated_of_quiet
          intro e he
          simp only [List.mem_cons, List.mem_append] at he
          rcases he with (((rfl | he) | rfl | he) | he) | he
          · rfl
          · exact (serialEvents_quiet u e he).1
          · rfl
          · revert e; decide
          · revert e; decide
          · simp at he; subst he; rfl
        · apply flagAfter_of_noAssign
          intro e he
          simp only [List.mem_cons, List.mem_append] at he
          rcases he with (((rfl | he) | rfl | he) | he) | he
          · rfl
          · exact (serialEvents_quiet u e he).2
          · rfl
          · revert e; decide
          · revert e; decide
          · simp at he; subst he; rfl

theorem awaitGlassFuel_safe (fuel : Nat) : ∀ m : Machine,
    Safe m (awaitGlassFuel fuel m).machine ∧
      (awaitGlassFuel fuel m).machine.accessGranted = m.accessGranted := by
  induction fuel with
  | zero => intro m; exact ⟨Safe.refl m, rfl⟩
  | succ n ih =>
    intro m
    have hq : Safe m (m.emit [.lcdClear, .lcdPrint "Place a glass"]) :=
      Safe.emit_quiet _ _ (by decide)
    simp only [awaitGlassFuel, isGlassPresent, emit_dists]
    rcases hd : m.dists with _ | ⟨d, ds⟩
    · exact ⟨hq, rfl⟩
    · simp only []
      have hq2 : Safe m (({ m.emit [.lcdClear, .lcdPrint "Place a glass"] with dists := ds } :
          Machine).emit [.ranging d, .delay 100]) :=
        Safe.trans hq (Safe.trans (Safe.of_eq rfl rfl) (Safe.emit_quiet _ _ (by
          intro e he; simp at he; rcases he with rfl | rfl <;> exact ⟨rfl, rfl⟩)))
      by_cases hlt : d < 3
      · simp only [hlt, decide_True]
        exact ⟨hq2, rfl⟩
      · simp only [hlt, decide_False]
        obtain ⟨h1, h2⟩ := ih (({ m.emit [.lcdClear, .lcdPrint "Place a glass"] with
          dists := ds } : Machine).emit [.ranging d, .delay 100])
        exact ⟨Safe.trans hq2 h1, h2⟩

theorem waitForKey_some {m m1 : Machine} {k : Char} (h : waitForKey m = some (k, m1)) :
    ∃ ks, m1 = { m with keys := ks } ∧ scanForKey m.keys = some (k, ks) := by
  unfold waitForKey at h
  split at h
  · simp at h
  · rename_i k1 ks1 hs
    simp only [Option.some.injEq, Prod.mk.injEq] at h
    exact ⟨ks1, h.2.symm, by rw [hs, h.1]⟩

theorem sugarSelect_frame (n : Nat) : ∀ (m m1 : Machine) (q : Nat),
    sugarSelect n m = some (q, m1) →
      m1.trace = m.trace ∧ m1.accessGranted = m.accessGranted := by
  induction n with
  | zero => intro m m1 q h; simp [sugarSelect] at h; simp [← h.2]
  | succ n ih =>
    intro m m1 q h
    simp only [sugarSelect] at h
    split at h
    · simp at h
    · rename_i key m2 hw
      obtain ⟨ks, rfl, -⟩ := waitForKey_some hw
      split_ifs at h
      · simp only [Option.some.injEq, Prod.mk.injEq] at h
        simp [← h.2]
      · have h3 := ih _ _ _ h
        exact h3

theorem sugarGate_safe (n : Nat) : ∀ m : Machine, m.accessGranted = true →
    Safe m (sugarGate n m) ∧ (sugarGate n m).accessGranted = true := by
  induction n with
  | zero => intro m hg; exact ⟨Safe.refl m, hg⟩
  | succ n ih =>
    intro m hg
    simp only [sugarGate]
    obtain ⟨h1, h2⟩ := ih (m.emit [.servoWrite 180, .delay 500, .servoWrite 0, .delay 500]) hg
    exact ⟨Safe.trans (Safe.emit_open m _ hg (by decide)) h1, h2⟩

theorem addSugar_safe (m : Machine) (hg : m.accessGranted = true) :
    Safe m (addSugar m).machine ∧ (addSugar m).machine.accessGranted = true := by
  have hq : Safe m (m.emit [.lcdClear, .lcdPrint "Sugar Qty (0-3):"]) :=
    Safe.emit_quiet _ _ (by decide)
  unfold addSugar
  simp only []
  split
  · exact ⟨Safe.trans hq (Safe.of_eq rfl rfl), hg⟩
  · rename_i q m2 hs
    obtain ⟨ht, ha⟩ := sugarSelect_frame _ _ _ _ hs
    obtain ⟨h1, h2⟩ := sugarGate_safe q m2 (by rw [ha]; exact hg)
    exact ⟨Safe.trans hq (Safe.trans (Safe.of_eq ht ha) h1), h2⟩

theorem pourWith_safe (es : List Event) (hes : ∀ e ∈ es, e.isAssign = false)
    (m : Machine) (hg : m.accessGranted = true) : Safe m (pourWith es m).machine := by
  unfold pourWith awaitGlass
  obtain ⟨h1, h2⟩ := awaitGlassFuel_safe (m.dists.length + 1) m
  cases ha : awaitGlassFuel (m.dists.length + 1) m with
  | blocked m1 => rw [ha] at h1; exact h1
  | done m1 =>
    rw [ha] at h1 h2
    simp only [Outcome.machine] at h1 h2
    simp only [Outcome.bind]
    have hg1 : (m1.emit [.lcdClear, .lcdPrint "Adding Sugar..."]).accessGranted = true := by
      simp [h2, hg]
    obtain ⟨h3, h4⟩ := addSugar_safe _ hg1
    have h5 : Safe m (m1.emit [.lcdClear, .lcdPrint "Adding Sugar..."]) :=
      Safe.trans h1 (Safe.emit_quiet _ _ (by decide))
    cases hb : addSugar (m1.emit [.lcdClear, .lcdPrint "Adding Sugar..."]) with
    | blocked m2 => rw [hb] at h3; exact Safe.trans h5 h3
    | done m2 =>
      rw [hb] at h3 h4
      simp only [Outcome.machine] at h3 h4 ⊢
      refine Safe.trans h5 (Safe.trans h3 (Safe.trans (Safe.emit_open m2 es h4 hes) ?_))
      exact Safe.trans (Safe.assign _ false) (Safe.emit_quiet _ _ (by decide))

theorem pourCafe_eq (m : Machine) :
    pourCafe m = pourWith (pumpEvents "Pouring Cafe..." relayCafe) m := rfl

theorem pourThe_eq (m : Machine) :
    pourThe m = pourWith (pumpEvents "Pouring The..." relayThe) m := rfl

theorem pourCafeAuLait_eq (m : Machine) :
    pourCafeAuLait m = pourWith (pumpEvents "Pouring Cafe..." relayCafe ++
      pumpEvents "Pouring Lait..." relayLait) m := by
  simp only [pourCafeAuLait, pourWith, emit_emit]

theorem pourTheAuLait_eq (m : Machine) :
    pourTheAuLait m = pourWith (pumpEvents "Pouring The..." relayThe ++
      pumpEvents "Pouring Lait..." relayLait) m := by
  simp only [pourTheAuLait, pourWith, emit_emit]

theorem showMenuFuel_safe (fuel : Nat) : ∀ m : Machine, m.accessGranted = true →
    Safe m (showMenuFuel fuel m).machine := by
  induction fuel with
  | zero => intro m _; exact Safe.refl m
  | succ n ih =>
    intro m hg
    have hq : Safe m (m.emit menuEvents) := Safe.emit_quiet _ _ (by decide)
    simp only [showMenuFuel]
    split
    · exact Safe.trans hq (Safe.of_eq rfl rfl)
    · rename_i key m2 hw
      obtain ⟨ks, rfl, -⟩ := waitForKey_some hw
      have hq2 : Safe m ({ m.emit menuEvents with keys := ks } : Machine) :=
        Safe.trans hq (Safe.of_eq rfl rfl)
      split_ifs
      · rw [pourCafe_eq]; exact Safe.trans hq2 (pourWith_safe _ (by decide) _ hg)
      · rw [pourCafeAuLait_eq]; exact Safe.trans hq2 (pourWith_safe _ (by decide) _ hg)
      · rw [pourThe_eq]; exact Safe.trans hq2 (pourWith_safe _ (by decide) _ hg)
      · rw [pourTheAuLait_eq]; exact Safe.trans hq2 (pourWith_safe _ (by decide) _ hg)
      · exact Safe.trans hq2 (Safe.trans (Safe.emit_quiet _ _ (by decide)) (ih _ hg))

theorem loop_safe (ram : Nat → Nat) (m : Machine) : Safe m (loop ram m).machine := by
  unfold loop
  cases hg : m.accessGranted with
  | false => simpa [Outcome.machine] using checkAccess_safe ram m
  | true => simpa [showMenu] using showMenuFuel_safe _ m hg

theorem run_safe (ram : Nat → Nat) (n : Nat) : ∀ m : Machine, Safe m (run ram n m).machine := by
  induction n with
  | zero => intro m; exact Safe.refl m
  | succ n ih =>
    intro m
    simp only [run]
    have h := loop_safe ram m
    cases hl : loop ram m with
    | blocked m1 => rw [hl] at h; exact h
    | done m1 =>
      rw [hl] at h
      exact Safe.trans h (ih m1)

theorem gated_split (g : Bool) (pre : List Event) (e : Event) (post : List Event)
    (h : gated g (pre ++ e :: post) = true) (he : e.isActuation = true) :
    flagAfter g pre = true := by
  rw [gated_append] at h
  simp only [gated, he, Bool.and_eq_true, Bool.or_eq_true, Bool.not_true] at h
  simpa using h.2.1

theorem flagAfter_snoc (g : Bool) (es : List Event) (x : Event) :
    flagAfter g (es ++ [x]) = x.flag (flagAfter g es) := by
  rw [flagAfter_append]; rfl

theorem grant_before (pre : List Event) (h : flagAfter false pre = true) :
    ∃ p1 p2, pre = p1 ++ Event.setAccess true :: p2 ∧ Event.setAccess false ∉ p2 := by
  induction pre using List.reverseRecOn with
  | nil => simp [flagAfter] at h
  | append_singleton es x ih =>
    rw [flagAfter_snoc] at h
    by_cases hx : x = Event.setAccess true
    · exact ⟨es, [], by simp [hx], by simp⟩
    · by_cases hx2 : x = Event.setAccess false
      · simp [hx2, Event.flag] at h
      · have h3 : flagAfter false es = true := by
          cases x <;> simp_all [Event.flag]
        obtain ⟨p1, p2, hp, hn⟩ := ih h3
        refine ⟨p1, p2 ++ [x], by simp [hp], ?_⟩
        simp only [List.mem_append, List.mem_singleton, not_or]
        exact ⟨hn, fun hc => hx2 hc.symm⟩

/-- C3: in every run of the main loop from boot, over all card reads, keypad
scans and distance readings, every relay write and every servo write is
issued while `accessGranted` is true: the events before it contain a grant
that no reset follows.  Each iteration runs the authentication tick exactly
when `accessGranted` is false and the dispense session exactly when it is
true, and the logged assignments account for the value of `accessGranted`. -/
theorem access_gating (ram : Nat → Nat) (cards : List (Option (List Nat)))
    (keys : List Char) (dists : List Int) (n : Nat) :
    (∀ m : Machine, (m.accessGranted = false → loop ram m = .done (checkAccess ram m)) ∧
      (m.accessGranted = true → loop ram m = showMenu m)) ∧
    ∃ evs, (run ram n (boot cards keys dists)).machine.trace =
        (boot cards keys dists).trace ++ evs ∧
      flagAfter false evs = (run ram n (boot cards keys dists)).machine.accessGranted ∧
      ∀ pre e post, evs = pre ++ e :: post → e.isActuation = true →
        flagAfter false pre = true ∧
        ∃ p1 p2, pre = p1 ++ Event.setAccess true :: p2 ∧ Event.setAccess false ∉ p2 := by
  refine ⟨fun m => ⟨fun h => by simp [loop, h], fun h => by simp [loop, h]⟩, ?_⟩
  obtain ⟨evs, ht, hg, hf⟩ := run_safe ram n (boot cards keys dists)
  refine ⟨evs, ht, hf, ?_⟩
  intro pre e post hsplit he
  have h1 : flagAfter false pre = true := by
    rw [hsplit] at hg
    exact gated_split _ pre e post hg he
  exact ⟨h1, grant_before pre h1⟩

/-- Instance of C3: from boot, the allowed tag, menu key `1`, a cup at 2 cm and
sugar key `0`.  The coffee relay is switched on in that run, and the events
of the main loop before it leave `accessGranted` true. -/
theorem access_gating_witness :
    ∃ pre post,
      (run (fun _ => 0) 2 (boot [some allowedUID] ['1', '0'] [2])).machine.trace =
        (boot [some allowedUID] ['1', '0'] [2]).trace ++
          (pre ++ Event.digitalWrite relayCafe true :: post) ∧
      flagAfter false pre = true := by
  obtain ⟨evs, ht, -, hall⟩ :=
    (access_gating (fun _ => 0) [some allowedUID] ['1', '0'] [2] 2).2
  have hev : evs = List.drop 16
      (run (fun _ => 0) 2 (boot [some allowedUID] ['1', '0'] [2])).machine.trace := by
    rw [ht]; rfl
  have hsplit : evs = List.take 30 evs ++ Event.digitalWrite relayCafe true ::
      List.drop 31 evs := by
    rw [hev]; rfl
  refine ⟨List.take 30 evs, List.drop 31 evs, ?_, (hall _ _ _ hsplit rfl).1⟩
  rw [← hsplit]; exact ht

/-! ## The dispense session, command by command -/

theorem awaitGlassFuel_done (far : List Int) (d : Int) (rest : List Int) :
    ∀ (fuel : Nat) (m : Machine), m.dists = far ++ d :: rest → (∀ x ∈ far, ¬ x < 3) → d < 3 →
      far.length < fuel →
      awaitGlassFuel fuel m =
        .done { m with dists := rest, trace := m.trace ++ placeEvents (far ++ [d]) } := by
  induction far with
  | nil =>
    intro fuel m hd _ hlt hf
    obtain ⟨f, rfl⟩ : ∃ f, fuel = f + 1 := ⟨fuel - 1, by omega⟩
    simp at hd
    simp [awaitGlassFuel, isGlassPresent, hd, hlt, placeEvents, Machine.emit]
  | cons x far ih =>
    intro fuel m hd hfar hlt hf
    obtain ⟨f, rfl⟩ : ∃ f, fuel = f + 1 := ⟨fuel - 1, by omega⟩
    have hx : ¬ x < 3 := hfar x (by simp)
    simp at hd
    simp only [awaitGlassFuel, isGlassPresent, emit_dists, hd, hx, decide_False]
    rw [ih f _ (by simp [Machine.emit]) (fun y hy => hfar y (by simp [hy])) hlt
      (by simpa using hf)]
    simp [placeEvents, Machine.emit]

theorem awaitGlassFuel_blocked : ∀ (ds : List Int) (fuel : Nat) (m : Machine), m.dists = ds →
    (∀ x ∈ ds, ¬ x < 3) → ds.length < fuel →
      awaitGlassFuel fuel m =
        .blocked { m with dists := [], trace := m.trace ++ placeEvents ds ++
          [.lcdClear, .lcdPrint "Place a glass"] } := by
  intro ds
  induction ds with
  | nil =>
    intro fuel m hd _ hf
    obtain ⟨f, rfl⟩ : ∃ f, fuel = f + 1 := ⟨fuel - 1, by omega⟩
    simp [awaitGlassFuel, isGlassPresent, hd, placeEvents, Machine.emit]
  | cons x ds ih =>
    intro fuel m hd hfar hf
    obtain ⟨f, rfl⟩ : ∃ f, fuel = f + 1 := ⟨fuel - 1, by omega⟩
    have hx : ¬ x < 3 := hfar x (by simp)
    simp only [awaitGlassFuel, isGlassPresent, emit_dists, hd, hx, decide_False]
    rw [ih f _ (by simp [Machine.emit]) (fun y hy => hfar y (by simp [hy]))
      (by simpa using hf)]
    simp [placeEvents, Machine.emit]

theorem sugarSelect_eq (n : Nat) : ∀ m : Machine,
    sugarSelect n m = (sugarPick n m.keys).map fun p => (p.1, { m with keys := p.2 }) := by
  induction n with
  | zero => intro m; simp [sugarSelect, sugarPick]
  | succ n ih =>
    intro m
    simp only [sugarSelect, sugarPick, waitForKey]
    cases hs : scanForKey m.keys with
    | none => simp
    | some p =>
      obtain ⟨k, ks⟩ := p
      simp only []
      split_ifs
      · simp
      · rw [ih]

theorem sugarGate_eq (n : Nat) : ∀ m : Machine, sugarGate n m = m.emit (sugarCycles n) := by
  induction n with
  | zero => intro m; simp [sugarGate, sugarCycles, Machine.emit]
  | succ n ih => intro m; simp only [sugarGate, sugarCycles]; rw [ih, emit_emit]

theorem addSugar_done (m : Machine) (q : Nat) (ks : List Char)
    (h : sugarPick 3 m.keys = some (q, ks)) :
    addSugar m = .done { m with keys := ks, trace := m.trace ++
      [.lcdClear, .lcdPrint "Sugar Qty (0-3):"] ++ sugarCycles q } := by
  unfold addSugar
  simp only [sugarSelect_eq, emit_keys, h, Option.map_some', sugarGate_eq]
  simp [Machine.emit]

theorem addSugar_blocked (m : Machine) (h : sugarPick 3 m.keys = none) :
    addSugar m = .blocked { m with keys := [], trace := m.trace ++
      [.lcdClear, .lcdPrint "Sugar Qty (0-3):"] } := by
  unfold addSugar
  simp only [sugarSelect_eq, emit_keys, h, Option.map_none']
  simp [Machine.emit]

theorem pourWith_done (es : List Event) (m : Machine) (far : List Int) (d : Int)
    (rest : List Int) (q : Nat) (ks : List Char)
    (hd : m.dists = far ++ d :: rest) (hfar : ∀ x ∈ far, ¬ x < 3) (hlt : d < 3)
    (hs : sugarPick 3 m.keys = some (q, ks)) :
    pourWith es m = .done
      { accessGranted := false, enteredPassword := m.enteredPassword, cards := m.cards,
        keys := ks, dists := rest,
        trace := m.trace ++ (placeEvents (far ++ [d]) ++
          [.lcdClear, .lcdPrint "Adding Sugar...", .lcdClear, .lcdPrint "Sugar Qty (0-3):"] ++
          sugarCycles q ++ es ++ Event.setAccess false :: promptEvents) } := by
  unfold pourWith awaitGlass
  rw [awaitGlassFuel_done far d rest _ m hd hfar hlt (by rw [hd]; simp; omega)]
  simp only [Outcome.bind]
  rw [addSugar_done _ q ks (by simpa using hs)]
  simp [Outcome.bind, sessionReset, displayPrompt, Machine.assignAccess, Machine.emit]

theorem isMenuKey_ne_NO_KEY {c : Char} (h : isMenuKey c = true) : c ≠ NO_KEY := by
  rintro rfl
  revert h
  decide

theorem showMenuFuel_menuKey (fuel : Nat) (m : Machine) (c : Char) (ks : List Char)
    (hk : m.keys = c :: ks) (hc : isMenuKey c = true) :
    showMenuFuel (fuel + 1) m =
      pourWith (recipeEvents (recipe c)) { m with keys := ks, trace := m.trace ++ menuEvents } := by
  have hne := isMenuKey_ne_NO_KEY hc
  simp only [isMenuKey, Bool.or_eq_true, decide_eq_true_eq] at hc
  simp only [showMenuFuel, waitForKey, emit_keys, hk, scanForKey, hne, if_false]
  rcases hc with ((rfl | rfl) | rfl) | rfl
  · rw [if_pos rfl, pourCafe_eq]; rfl
  · rw [if_neg (by decide), if_pos rfl, pourCafeAuLait_eq]; rfl
  · rw [if_neg (by decide), if_neg (by decide), if_pos rfl, pourThe_eq]; rfl
  · rw [if_neg (by decide), if_neg (by decide), if_neg (by decide), if_pos rfl,
      pourTheAuLait_eq]; rfl

theorem showMenuFuel_blank (fuel : Nat) (m : Machine) (ks : List Char)
    (hk : m.keys = NO_KEY :: ks) :
    showMenuFuel (fuel + 1) m = showMenuFuel (fuel + 1) { m with keys := ks } := by
  simp [showMenuFuel, waitForKey, hk, scanForKey]

theorem showMenuFuel_invalid (fuel : Nat) (m : Machine) (j : Char) (ks : List Char)
    (hk : m.keys = j :: ks) (hj : isMenuKey j = false) (hne : j ≠ NO_KEY) :
    showMenuFuel (fuel + 1) m =
      showMenuFuel fuel { m with keys := ks, trace := m.trace ++ menuEvents ++
        [.lcdClear, .lcdPrint "Invalid choice", .delay 2000] } := by
  simp only [isMenuKey, Bool.or_eq_false_iff, decide_eq_false_iff_not] at hj
  obtain ⟨⟨⟨h1, h2⟩, h3⟩, h4⟩ := hj
  simp [showMenuFuel, waitForKey, hk, scanForKey, hne, h1, h2, h3, h4, Machine.emit]

theorem showMenuFuel_select (c : Char) (ks : List Char) (hc : isMenuKey c = true) :
    ∀ (junk : List Char) (fuel : Nat) (m : Machine), m.keys = junk ++ c :: ks →
      (∀ j ∈ junk, isMenuKey j = false) → junk.length < fuel →
      showMenuFuel fuel m =
        pourWith (recipeEvents (recipe c)) { m with keys := ks, trace := m.trace ++
          (menuEvents ++ invalidRounds (presses junk).length) } := by
  intro junk
  induction junk with
  | nil =>
    intro fuel m hk _ hf
    obtain ⟨f, rfl⟩ : ∃ f, fuel = f + 1 := ⟨fuel - 1, by omega⟩
    rw [showMenuFuel_menuKey f m c ks (by simpa using hk) hc]
    simp [presses, invalidRounds]
  | cons j junk ih =>
    intro fuel m hk hjunk hf
    obtain ⟨f, rfl⟩ : ∃ f, fuel = f + 1 := ⟨fuel - 1, by omega⟩
    have hrest : ∀ x ∈ junk, isMenuKey x = false := fun x hx => hjunk x (by simp [hx])
    by_cases hj : j = NO_KEY
    · subst hj
      rw [showMenuFuel_blank f m (junk ++ c :: ks) (by simpa using hk),
        ih (f + 1) _ rfl hrest (by simp at hf; omega)]
      simp [presses]
    · rw [showMenuFuel_invalid f m j (junk ++ c :: ks) (by simpa using hk)
        (hjunk j (by simp)) hj, ih f _ rfl hrest (by simpa using hf)]
      simp [presses, hj, invalidRounds]

/-- One complete dispense session: the state `showMenu` returns and the
commands it issues, for keys `junk ++ c :: ks` (no menu key in `junk`), readings
`far ++ d :: rest` (the first below 3 being `d`) and sugar selection `q`. -/
theorem showMenu_session (m : Machine) (junk : List Char) (c : Char) (ks : List Char)
    (far : List Int) (d : Int) (rest : List Int) (q : Nat) (ks1 : List Char)
    (hk : m.keys = junk ++ c :: ks) (hjunk : ∀ j ∈ junk, isMenuKey j = false)
    (hc : isMenuKey c = true)
    (hd : m.dists = far ++ d :: rest) (hfar : ∀ x ∈ far, ¬ x < 3) (hlt : d < 3)
    (hs : sugarPick 3 ks = some (q, ks1)) :
    showMenu m = .done
      { accessGranted := false, enteredPassword := m.enteredPassword, cards := m.cards,
        keys := ks1, dists := rest,
        trace := m.trace ++ sessionEvents (presses junk).length c (far ++ [d]) q } := by
  unfold showMenu
  rw [showMenuFuel_select c ks hc junk _ m hk hjunk (by rw [hk]; simp; omega),
    pourWith_done _ _ far d rest q ks1 (by exact hd) hfar hlt (by exact hs)]
  simp [sessionEvents, List.append_assoc]

/-! ## Recipes -/

theorem mem_invalidRounds (n : Nat) (e : Event) (h : e ∈ invalidRounds n) :
    e ∈ [Event.lcdClear, Event.lcdPrint "Invalid choice", Event.delay 2000] ++ menuEvents := by
  induction n with
  | zero => simp [invalidRounds] at h
  | succ n ih =>
    simp only [invalidRounds, List.mem_append] at h
    rcases h with h | h
    · exact List.mem_append.mpr h
    · exact ih h

theorem mem_placeEvents (ds : List Int) (e : Event) (h : e ∈ placeEvents ds) :
    e = Event.lcdClear ∨ e = Event.lcdPrint "Place a glass" ∨ (∃ d, e = Event.ranging d) ∨
      e = Event.delay 100 := by
  simp only [placeEvents, List.mem_flatMap] at h
  obtain ⟨d, -, hd⟩ := h
  simp at hd
  rcases hd with rfl | rfl | rfl | rfl <;> simp

theorem mem_sugarCycles (n : Nat) (e : Event) (h : e ∈ sugarCycles n) :
    e ∈ [Event.servoWrite 180, Event.delay 500, Event.servoWrite 0, Event.delay 500] := by
  induction n with
  | zero => simp [sugarCycles] at h
  | succ n ih =>
    simp only [sugarCycles, List.mem_append] at h
    rcases h with h | h
    · exact h
    · exact ih h

theorem placeEvents_quiet (ds : List Int) : ∀ e ∈ placeEvents ds, e.isActuation = false := by
  intro e he
  simp only [placeEvents, List.mem_flatMap] at he
  obtain ⟨d, -, hd⟩ := he
  simp at hd
  rcases hd with rfl | rfl | rfl | rfl <;> rfl

theorem addSugar_extends (m : Machine) :
    ∃ tail, (addSugar m).machine.trace = m.trace ++ tail ∧
      (addSugar m).machine.dists = m.dists := by
  cases h : sugarPick 3 m.keys with
  | none =>
    rw [addSugar_blocked m h]
    exact ⟨[.lcdClear, .lcdPrint "Sugar Qty (0-3):"], rfl, rfl⟩
  | some p =>
    obtain ⟨q, ks⟩ := p
    rw [addSugar_done m q ks h]
    exact ⟨[.lcdClear, .lcdPrint "Sugar Qty (0-3):"] ++ sugarCycles q,
      by simp only [Outcome.machine, List.append_assoc], rfl⟩

theorem pourWith_cup (es : List Event) (m : Machine) (far : List Int) (d : Int)
    (rest : List Int) (hd : m.dists = far ++ d :: rest) (hfar : ∀ x ∈ far, 3 ≤ x)
    (hlt : d < 3) :
    ∃ tail, (pourWith es m).machine.trace = m.trace ++ placeEvents (far ++ [d]) ++
        Event.lcdClear :: Event.lcdPrint "Adding Sugar..." :: tail ∧
      (pourWith es m).machine.dists = rest := by
  unfold pourWith awaitGlass
  rw [awaitGlassFuel_done far d rest _ m hd (fun x hx => not_lt.mpr (hfar x hx)) hlt
    (by rw [hd]; simp; omega)]
  simp only [Outcome.bind]
  obtain ⟨tail, h1, h2⟩ := addSugar_extends
    (({ m with dists := rest, trace := m.trace ++ placeEvents (far ++ [d]) } : Machine).emit
      [.lcdClear, .lcdPrint "Adding Sugar..."])
  cases hb : addSugar (({ m with dists := rest, trace := m.trace ++ placeEvents (far ++ [d]) } :
      Machine).emit [.lcdClear, .lcdPrint "Adding Sugar..."]) with
  | blocked m2 =>
    rw [hb] at h1 h2
    simp only [Outcome.machine, Outcome.bind] at h1 h2 ⊢
    exact ⟨tail, by rw [h1]; simp, h2⟩
  | done m2 =>
    rw [hb] at h1 h2
    simp only [Outcome.machine, Outcome.bind] at h1 h2 ⊢
    refine ⟨tail ++ es ++ Event.setAccess false :: promptEvents, ?_, ?_⟩
    · simp [sessionReset, displayPrompt, Machine.assignAccess, Machine.emit, h1]
    · simpa [sessionReset, displayPrompt, Machine.assignAccess, Machine.emit] using h2

theorem pourWith_no_cup (es : List Event) (m : Machine) (h : ∀ x ∈ m.dists, 3 ≤ x) :
    pourWith es m = .blocked { m with dists := [], trace := m.trace ++ placeEvents m.dists ++
      [.lcdClear, .lcdPrint "Place a glass"] } := by
  unfold pourWith awaitGlass
  rw [awaitGlassFuel_blocked m.dists _ m rfl (fun x hx => not_lt.mpr (h x hx)) (by omega)]
  rfl

theorem pour_routine_cases (r : Machine → Outcome)
    (hr : r ∈ [pourCafe, pourCafeAuLait, pourThe, pourTheAuLait]) :
    ∃ es, r = pourWith es := by
  simp only [List.mem_cons, List.mem_singleton, List.not_mem_nil, or_false] at hr
  rcases hr with rfl | rfl | rfl | rfl
  · exact ⟨_, funext pourCafe_eq⟩
  · exact ⟨_, funext pourCafeAuLait_eq⟩
  · exact ⟨_, funext pourThe_eq⟩
  · exact ⟨_, funext pourTheAuLait_eq⟩

/-- C5: each drink routine leaves the cup wait on the first reading below 3
and on no earlier one: the readings consumed are exactly those up to it, each
preceded by "Place a glass", and the only commands issued until then are
display, measurement and delay (no relay or servo write); the sugar stage
follows at once.  When every reading is 3 or more the routine never advances. -/
theorem cup_presence (r : Machine → Outcome)
    (hr : r ∈ [pourCafe, pourCafeAuLait, pourThe, pourTheAuLait]) (m : Machine) :
    (∀ far d rest, m.dists = far ++ d :: rest → (∀ x ∈ far, 3 ≤ x) → d < 3 →
      (∃ tail, (r m).machine.trace = m.trace ++ placeEvents (far ++ [d]) ++
        Event.lcdClear :: Event.lcdPrint "Adding Sugar..." :: tail) ∧
      (r m).machine.dists = rest ∧
      ∀ e ∈ placeEvents (far ++ [d]), e.isActuation = false) ∧
    ((∀ x ∈ m.dists, 3 ≤ x) →
      r m = .blocked { m with dists := [], trace := m.trace ++ placeEvents m.dists ++
        [.lcdClear, .lcdPrint "Place a glass"] } ∧
      ∀ e ∈ placeEvents m.dists ++ [.lcdClear, .lcdPrint "Place a glass"],
        e.isActuation = false) := by
  obtain ⟨es, rfl⟩ := pour_routine_cases r hr
  constructor
  · intro far d rest hd hfar hlt
    obtain ⟨tail, h1, h2⟩ := pourWith_cup es m far d rest hd hfar hlt
    exact ⟨⟨tail, h1⟩, h2, placeEvents_quiet _⟩
  · intro h
    refine ⟨pourWith_no_cup es m h, ?_⟩
    intro e he
    rcases List.mem_append.mp he with he | he
    · exact placeEvents_quiet _ e he
    · simp at he
      rcases he with rfl | rfl <;> rfl

/-- Instance of C5: with readings 10 then 1 the tea routine advances on the
second; with reading 2 it advances at once; with readings 10 then 3 it never
advances. -/
theorem cup_presence_witness :
    (∃ tail, (pourThe (atMenu ['0'] [10, 1])).machine.trace =
      [.lcdClear, .lcdPrint "Place a glass", .ranging 10, .delay 100,
       .lcdClear, .lcdPrint "Place a glass", .ranging 1, .delay 100,
       .lcdClear, .lcdPrint "Adding Sugar..."] ++ tail) ∧
    (∃ tail, (pourThe (atMenu ['0'] [2])).machine.trace =
      [.lcdClear, .lcdPrint "Place a glass", .ranging 2, .delay 100,
       .lcdClear, .lcdPrint "Adding Sugar..."] ++ tail) ∧
    pourThe (atMenu ['0'] [10, 3]) = .blocked
      { atMenu ['0'] [] with trace :=
        [.lcdClear, .lcdPrint "Place a glass", .ranging 10, .delay 100,
         .lcdClear, .lcdPrint "Place a glass", .ranging 3, .delay 100,
         .lcdClear, .lcdPrint "Place a glass"] } := by
  refine ⟨?_, ?_, ?_⟩
  · obtain ⟨⟨tail, h⟩, -, -⟩ := (cup_presence pourThe (by simp) (atMenu ['0'] [10, 1])).1
      [10] 1 [] rfl (by decide) (by decide)
    exact ⟨tail, by rw [h]; rfl⟩
  · obtain ⟨⟨tail, h⟩, -, -⟩ := (cup_presence pourThe (by simp) (atMenu ['0'] [2])).1
      [] 2 [] rfl (by decide) (by decide)
    exact ⟨tail, by rw [h]; rfl⟩
  · rw [((cup_presence pourThe (by simp) (atMenu ['0'] [10, 3])).2 (by decide)).1]
    rfl

/-! ## Sugar -/

theorem sugarKey_value_le (k : Char) (h : '0' ≤ k ∧ k ≤ '3') : k.toNat - '0'.toNat ≤ 3 := by
  have h2 : k.toNat ≤ '3'.toNat := h.2
  have h3 : '3'.toNat = 51 := rfl
  have h4 : '0'.toNat = 48 := rfl
  omega

theorem sugarPick_le (n : Nat) : ∀ (ks : List Char) (q : Nat) (rest : List Char),
    sugarPick n ks = some (q, rest) → q ≤ 3 := by
  induction n with
  | zero => intro ks q rest h; simp [sugarPick] at h; omega
  | succ n ih =>
    intro ks q rest h
    simp only [sugarPick] at h
    split at h
    · simp at h
    · rename_i key r hs
      split_ifs at h with hk
      · simp only [Option.some.injEq, Prod.mk.injEq] at h
        rw [← h.1]; exact sugarKey_value_le key hk
      · exact ih _ _ _ h

theorem sugarCycles_eq (n : Nat) :
    sugarCycles n = (List.replicate n
      [Event.servoWrite 180, Event.delay 500, Event.servoWrite 0, Event.delay 500]).flatten := by
  induction n with
  | zero => rfl
  | succ n ih => simp [sugarCycles, List.replicate_succ, ih]

theorem servoWrites_sugarCycles (n : Nat) :
    servoWrites (sugarCycles n) = (List.replicate n [180, 0]).flatten := by
  induction n with
  | zero => rfl
  | succ n ih => simp [sugarCycles, List.replicate_succ, servoWrites, ih]

/-- C6: when the selection loop of `addSugar` yields the quantity `q` (always
at most 3), `addSugar` returns after exactly `q` gate cycles, each being servo
to 180, 500 ms, servo to 0, 500 ms; the servo angles written are `q` times
180 then 0, and for `q = 0` the servo is not written at all. -/
theorem sugar_cycles (m : Machine) (q : Nat) (ks : List Char)
    (h : sugarPick 3 m.keys = some (q, ks)) :
    q ≤ 3 ∧
    addSugar m = .done { m with keys := ks, trace := m.trace ++
      ([.lcdClear, .lcdPrint "Sugar Qty (0-3):"] ++ sugarCycles q) } ∧
    sugarCycles q = (List.replicate q
      [Event.servoWrite 180, Event.delay 500, Event.servoWrite 0, Event.delay 500]).flatten ∧
    servoWrites ([.lcdClear, .lcdPrint "Sugar Qty (0-3):"] ++ sugarCycles q) =
      (List.replicate q [180, 0]).flatten ∧
    (q = 0 → servoWrites ([.lcdClear, .lcdPrint "Sugar Qty (0-3):"] ++ sugarCycles q) = []) := by
  have hw : servoWrites ([.lcdClear, .lcdPrint "Sugar Qty (0-3):"] ++ sugarCycles q) =
      (List.replicate q [180, 0]).flatten := by
    simp [servoWrites, servoWrites_sugarCycles]
  refine ⟨sugarPick_le 3 _ _ _ h, ?_, sugarCycles_eq q, hw, ?_⟩
  · rw [addSugar_done m q ks h]; simp
  · intro hq; rw [hw, hq]; rfl

/-- Instance of C6: the keys `0`, `1`, `2`, `3` give 0, 1, 2 and 3 gate cycles. -/
theorem sugar_cycles_witness :
    addSugar (atMenu ['0'] []) = .done
      { atMenu [] [] with trace := [.lcdClear, .lcdPrint "Sugar Qty (0-3):"] } ∧
    addSugar (atMenu ['1'] []) = .done
      { atMenu [] [] with trace := [.lcdClear, .lcdPrint "Sugar Qty (0-3):",
          .servoWrite 180, .delay 500, .servoWrite 0, .delay 500] } ∧
    servoWrites (addSugar (atMenu ['2'] [])).machine.trace = [180, 0, 180, 0] ∧
    servoWrites (addSugar (atMenu ['3'] [])).machine.trace = [180, 0, 180, 0, 180, 0] := by
  have h0 := sugar_cycles (atMenu ['0'] []) 0 [] rfl
  have h1 := sugar_cycles (atMenu ['1'] []) 1 [] rfl
  have h2 := sugar_cycles (atMenu ['2'] []) 2 [] rfl
  have h3 := sugar_cycles (atMenu ['3'] []) 3 [] rfl
  refine ⟨by rw [h0.2.1]; rfl, by rw [h1.2.1]; rfl, ?_, ?_⟩
  · rw [h2.2.1]; exact h2.2.2.2.1
  · rw [h3.2.1]; exact h3.2.2.2.1

theorem scanForKey_blank (ks : List Char) : scanForKey (NO_KEY :: ks) = scanForKey ks := by
  simp [scanForKey]

theorem scanForKey_press (k : Char) (ks : List Char) (h : k ≠ NO_KEY) :
    scanForKey (k :: ks) = some (k, ks) := by
  simp [scanForKey, h]

theorem sugarPick_blank (n : Nat) (ks : List Char) :
    sugarPick (n + 1) (NO_KEY :: ks) = sugarPick (n + 1) ks := by
  simp [sugarPick, scanForKey_blank]

theorem isSugarKey_ne_NO_KEY {k : Char} (h : isSugarKey k = true) : k ≠ NO_KEY := by
  rintro rfl
  revert h
  decide

theorem sugarPick_select (k : Char) (rest : List Char) (hk : isSugarKey k = true) :
    ∀ (junk : List Char) (n : Nat), (presses junk).length < n →
      (∀ j ∈ junk, isSugarKey j = false) →
      sugarPick n (junk ++ k :: rest) = some (k.toNat - '0'.toNat, rest) := by
  intro junk
  induction junk with
  | nil =>
    intro n hn _
    obtain ⟨f, rfl⟩ : ∃ f, n = f + 1 := ⟨n - 1, by omega⟩
    have hk2 : '0' ≤ k ∧ k ≤ '3' := by simpa [isSugarKey] using hk
    simp [sugarPick, scanForKey_press k rest (isSugarKey_ne_NO_KEY hk), hk2]
  | cons j junk ih =>
    intro n hn hjunk
    obtain ⟨f, rfl⟩ : ∃ f, n = f + 1 := ⟨n - 1, by omega⟩
    have hrest : ∀ x ∈ junk, isSugarKey x = false := fun x hx => hjunk x (by simp [hx])
    by_cases hj : j = NO_KEY
    · subst hj
      rw [List.cons_append, sugarPick_blank]
      exact ih (f + 1) (by simpa [presses] using hn) hrest
    · have hj2 : ¬ ('0' ≤ j ∧ j ≤ '3') := by simpa [isSugarKey] using hjunk j (by simp)
      simp only [List.cons_append, sugarPick, scanForKey_press j _ hj, hj2, if_false]
      exact ih f (by simp [presses, hj] at hn; simpa [presses] using hn) hrest

theorem sugarPick_exhaust (k : Char) (rest : List Char) (hk : isSugarKey k = false)
    (hne : k ≠ NO_KEY) :
    ∀ (junk : List Char) (n : Nat), (presses junk).length = n →
      (∀ j ∈ junk, isSugarKey j = false) →
      sugarPick (n + 1) (junk ++ k :: rest) = some (0, rest) := by
  intro junk
  induction junk with
  | nil =>
    intro n hn _
    have hk2 : ¬ ('0' ≤ k ∧ k ≤ '3') := by simpa [isSugarKey] using hk
    simp [presses] at hn
    subst hn
    simp [sugarPick, scanForKey_press k rest hne, hk2]
  | cons j junk ih =>
    intro n hn hjunk
    have hrest : ∀ x ∈ junk, isSugarKey x = false := fun x hx => hjunk x (by simp [hx])
    by_cases hj : j = NO_KEY
    · subst hj
      rw [List.cons_append, sugarPick_blank]
      exact ih n (by simpa [presses] using hn) hrest
    · have hj2 : ¬ ('0' ≤ j ∧ j ≤ '3') := by simpa [isSugarKey] using hjunk j (by simp)
      simp [presses, hj] at hn
      subst hn
      simp only [List.cons_append, sugarPick, scanForKey_press j _ hj, hj2, if_false]
      exact ih _ (by simp [presses]) hrest

theorem sugarPick_starved : ∀ (ks : List Char) (n : Nat), (presses ks).length < n →
    (∀ j ∈ ks, isSugarKey j = false) → sugarPick n ks = none := by
  intro ks
  induction ks with
  | nil =>
    intro n hn _
    obtain ⟨f, rfl⟩ : ∃ f, n = f + 1 := ⟨n - 1, by omega⟩
    simp [sugarPick, scanForKey]
  | cons j ks ih =>
    intro n hn hall
    obtain ⟨f, rfl⟩ : ∃ f, n = f + 1 := ⟨n - 1, by omega⟩
    have hrest : ∀ x ∈ ks, isSugarKey x = false := fun x hx => hall x (by simp [hx])
    by_cases hj : j = NO_KEY
    · subst hj
      rw [sugarPick_blank]
      exact ih (f + 1) (by simpa [presses] using hn) hrest
    · have hj2 : ¬ ('0' ≤ j ∧ j ≤ '3') := by simpa [isSugarKey] using hall j (by simp)
      simp only [sugarPick, scanForKey_press j _ hj, hj2, if_false]
      exact ih f (by simp [presses, hj] at hn; simpa [presses] using hn) hrest

theorem scanForKey_some : ∀ (ks : List Char) (k : Char) (rest : List Char),
    scanForKey ks = some (k, rest) →
      ∃ blanks, ks = blanks ++ k :: rest ∧ presses blanks = [] ∧ k ≠ NO_KEY := by
  intro ks
  induction ks with
  | nil => intro k rest h; simp [scanForKey] at h
  | cons j ks ih =>
    intro k rest h
    by_cases hj : j = NO_KEY
    · subst hj
      rw [scanForKey_blank] at h
      obtain ⟨b, hb, hp, hk⟩ := ih k rest h
      exact ⟨NO_KEY :: b, by simp [hb], by simpa [presses] using hp, hk⟩
    · rw [scanForKey_press j ks hj] at h
      simp only [Option.some.injEq, Prod.mk.injEq] at h
      obtain ⟨rfl, rfl⟩ := h
      exact ⟨[], rfl, rfl, hj⟩

theorem presses_append (a b : List Char) : presses (a ++ b) = presses a ++ presses b := by
  simp [presses]

theorem sugarPick_used (n : Nat) : ∀ (ks : List Char) (q : Nat) (rest : List Char),
    sugarPick n ks = some (q, rest) →
      ∃ used, ks = used ++ rest ∧ (presses used).length ≤ n := by
  induction n with
  | zero =>
    intro ks q rest h
    simp only [sugarPick, Option.some.injEq, Prod.mk.injEq] at h
    exact ⟨[], by simp [h.2], by simp [presses]⟩
  | succ n ih =>
    intro ks q rest h
    simp only [sugarPick] at h
    split at h
    · simp at h
    · rename_i key r hs
      obtain ⟨b, hb, hp, hk⟩ := scanForKey_some _ _ _ hs
      split_ifs at h
      · simp only [Option.some.injEq, Prod.mk.injEq] at h
        refine ⟨b ++ [key], by simp [hb, h.2], ?_⟩
        rw [presses_append, hp]; simp [presses, hk]
      · obtain ⟨u, hu, hl⟩ := ih _ _ _ h
        refine ⟨b ++ key :: u, by simp [hb, hu], ?_⟩
        rw [presses_append, hp]
        simp only [List.nil_append, presses, List.filter_cons, hk, ne_eq, not_false_eq_true,
          decide_True, if_true, List.length_cons]
        simpa [presses] using hl

theorem sugarPick_none (n : Nat) : ∀ ks : List Char, sugarPick n ks = none →
    (presses ks).length < n := by
  induction n with
  | zero => intro ks h; simp [sugarPick] at h
  | succ n ih =>
    intro ks h
    simp only [sugarPick] at h
    split at h
    · rename_i hs
      have : presses ks = [] := by
        clear h ih
        induction ks with
        | nil => rfl
        | cons j ks ih2 =>
          by_cases hj : j = NO_KEY
          · subst hj; rw [scanForKey_blank] at hs; simpa [presses] using ih2 hs
          · rw [scanForKey_press j ks hj] at hs; simp at hs
      simp [this]
    · rename_i key r hs
      obtain ⟨b, hb, hp, hk⟩ := scanForKey_some _ _ _ hs
      split_ifs at h
      have h2 := ih _ h
      rw [hb, presses_append, hp]
      simp only [List.nil_append, presses, List.filter_cons, hk, ne_eq, not_false_eq_true,
        decide_True, if_true, List.length_cons]
      simpa [presses] using h2

/-- C7: `addSugar` selects the value of the first key pressed among the first
three that lies in `0`..`3`, and the scans left are exactly those after that
key; a key outside `0`..`3` uses up one attempt; when the first three keys
pressed all lie outside `0`..`3` the quantity is 0 and the scans left are
those after the third key.  Whenever `addSugar` returns, the quantity is at
most 3 and at most three key presses were consumed; it keeps waiting only
while fewer than three keys have been pressed. -/
theorem sugar_selection (m : Machine) :
    (∀ junk k rest, m.keys = junk ++ k :: rest → (presses junk).length < 3 →
      (∀ j ∈ junk, isSugarKey j = false) → isSugarKey k = true →
      k.toNat - '0'.toNat ≤ 3 ∧
      addSugar m = .done { m with keys := rest, trace := m.trace ++
        ([.lcdClear, .lcdPrint "Sugar Qty (0-3):"] ++ sugarCycles (k.toNat - '0'.toNat)) }) ∧
    (∀ junk k rest, m.keys = junk ++ k :: rest → (presses junk).length = 2 →
      (∀ j ∈ junk, isSugarKey j = false) → isSugarKey k = false → k ≠ NO_KEY →
      addSugar m = .done { m with keys := rest, trace := m.trace ++
        [.lcdClear, .lcdPrint "Sugar Qty (0-3):"] }) ∧
    (∀ m1, addSugar m = .done m1 →
      ∃ q used, q ≤ 3 ∧ m.keys = used ++ m1.keys ∧ (presses used).length ≤ 3 ∧
        m1.trace = m.trace ++ ([.lcdClear, .lcdPrint "Sugar Qty (0-3):"] ++ sugarCycles q)) ∧
    (∀ m1, addSugar m = .blocked m1 → (presses m.keys).length < 3 ∧ m1.keys = [] ∧
      m1.trace = m.trace ++ [.lcdClear, .lcdPrint "Sugar Qty (0-3):"]) := by
  refine ⟨?_, ?_, ?_, ?_⟩
  · intro junk k rest hk hn hjunk hkey
    have hp := sugarPick_select k rest hkey junk 3 hn hjunk
    rw [← hk] at hp
    refine ⟨sugarPick_le 3 _ _ _ hp, ?_⟩
    rw [addSugar_done m _ rest hp]; simp
  · intro junk k rest hk hn hjunk hkey hne
    have hp := sugarPick_exhaust k rest hkey hne junk 2 hn hjunk
    rw [← hk] at hp
    rw [addSugar_done m _ rest hp]; simp [sugarCycles]
  · intro m1 h
    cases hp : sugarPick 3 m.keys with
    | none => rw [addSugar_blocked m hp] at h; simp at h
    | some p =>
      obtain ⟨q, rest⟩ := p
      rw [addSugar_done m q rest hp] at h
      simp only [Outcome.done.injEq] at h
      subst h
      obtain ⟨used, hu, hl⟩ := sugarPick_used 3 _ _ _ hp
      exact ⟨q, used, sugarPick_le 3 _ _ _ hp, hu, hl, by simp⟩
  · intro m1 h
    cases hp : sugarPick 3 m.keys with
    | none =>
      rw [addSugar_blocked m hp] at h
      simp only [Outcome.blocked.injEq] at h
      subst h
      exact ⟨sugarPick_none 3 _ hp, rfl, rfl⟩
    | some p =>
      obtain ⟨q, rest⟩ := p
      rw [addSugar_done m q rest hp] at h; simp at h

/-- Instance of C7: after `A` the key `2` selects two units and leaves `3`
unread; after `A`, `9`, `#` the quantity is 0 and `3` is left unread. -/
theorem sugar_selection_witness :
    addSugar (atMenu ['A', '2', '3'] []) = .done
      { atMenu ['3'] [] with trace := [.lcdClear, .lcdPrint "Sugar Qty (0-3):",
          .servoWrite 180, .delay 500, .servoWrite 0, .delay 500,
          .servoWrite 180, .delay 500, .servoWrite 0, .delay 500] } ∧
    addSugar (atMenu ['A', '9', '#', '3'] []) = .done
      { atMenu ['3'] [] with trace := [.lcdClear, .lcdPrint "Sugar Qty (0-3):"] } := by
  constructor
  · rw [((sugar_selection (atMenu ['A', '2', '3'] [])).1 ['A'] '2' ['3'] rfl (by decide)
      (by decide) (by decide)).2]
    rfl
  · rw [(sugar_selection (atMenu ['A', '9', '#', '3'] [])).2.1 ['A', '9'] '#' ['3'] rfl
      (by decide) (by decide) (by decide) (by decide)]
    rfl

/-! ## Session reset -/

theorem sessionEvents_eq (n : Nat) (c : Char) (ds : List Int) (q : Nat) :
    sessionEvents n c ds q =
      preparation n ds q ++ recipeEvents (recipe c) ++ Event.setAccess false :: promptEvents := by
  simp [sessionEvents, preparation, List.append_assoc]

theorem mem_preparation (n : Nat) (ds : List Int) (q : Nat) (e : Event)
    (h : e ∈ preparation n ds q) :
    e.isAssign = false ∧ e ≠ Event.lcdPrint "Scan RFID or" := by
  simp only [preparation, List.mem_append] at h
  rcases h with (h | h) | (h | h) | h
  · revert e; decide
  · have h2 := mem_invalidRounds n e h
    clear h
    revert e; decide
  · rcases mem_placeEvents ds e h with rfl | rfl | ⟨d, rfl⟩ | rfl <;>
      exact ⟨rfl, by simp⟩
  · revert e; decide
  · have h2 := mem_sugarCycles q e h
    clear h
    revert e; decide

/-- C8: for each menu key `1` to `4`, after any number of rejected keys, a
call of `showMenu` that reaches the pumps returns with `accessGranted` false
and the idle prompt as the last thing displayed.  The assignment
`accessGranted = false` and the prompt occur exactly once in the session,
directly after the last relay has been switched off, and the next iteration
of the main loop runs the authentication tick. -/
theorem session_reset_once (ram : Nat → Nat) (m : Machine) (junk : List Char) (c : Char)
    (ks : List Char) (far : List Int) (d : Int) (rest : List Int) (q : Nat) (ks1 : List Char)
    (hk : m.keys = junk ++ c :: ks) (hjunk : ∀ j ∈ junk, isMenuKey j = false)
    (hc : isMenuKey c = true)
    (hd : m.dists = far ++ d :: rest) (hfar : ∀ x ∈ far, 3 ≤ x) (hlt : d < 3)
    (hs : sugarPick 3 ks = some (q, ks1)) :
    ∃ m1 body relay, showMenu m = .done m1 ∧ m1.accessGranted = false ∧
      m1.trace = m.trace ++ (body ++ [Event.digitalWrite relay false, Event.setAccess false] ++
        promptEvents) ∧
      Event.setAccess false ∉ body ∧ Event.lcdPrint "Scan RFID or" ∉ body ∧
      List.count (Event.setAccess false)
        (body ++ [Event.digitalWrite relay false, Event.setAccess false] ++ promptEvents) = 1 ∧
      List.count (Event.lcdPrint "Scan RFID or")
        (body ++ [Event.digitalWrite relay false, Event.setAccess false] ++ promptEvents) = 1 ∧
      loop ram m1 = .done (checkAccess ram m1) := by
  have hsess := showMenu_session m junk c ks far d rest q ks1 hk hjunk hc hd
    (fun x hx => not_lt.mpr (hfar x hx)) hlt hs
  have hpump : ∃ init relay, recipeEvents (recipe c) = init ++ [Event.digitalWrite relay false] ∧
      Event.setAccess false ∉ init ∧ Event.lcdPrint "Scan RFID or" ∉ init := by
    simp only [isMenuKey, Bool.or_eq_true, decide_eq_true_eq] at hc
    rcases hc with ((rfl | rfl) | rfl) | rfl
    · exact ⟨[.lcdClear, .lcdPrint "Pouring Cafe...", .digitalWrite relayCafe true, .delay 2000],
        relayCafe, rfl, by decide, by decide⟩
    · exact ⟨[.lcdClear, .lcdPrint "Pouring Cafe...", .digitalWrite relayCafe true, .delay 2000,
        .digitalWrite relayCafe false, .lcdClear, .lcdPrint "Pouring Lait...",
        .digitalWrite relayLait true, .delay 2000], relayLait, rfl, by decide, by decide⟩
    · exact ⟨[.lcdClear, .lcdPrint "Pouring The...", .digitalWrite relayThe true, .delay 2000],
        relayThe, rfl, by decide, by decide⟩
    · exact ⟨[.lcdClear, .lcdPrint "Pouring The...", .digitalWrite relayThe true, .delay 2000,
        .digitalWrite relayThe false, .lcdClear, .lcdPrint "Pouring Lait...",
        .digitalWrite relayLait true, .delay 2000], relayLait, rfl, by decide, by decide⟩
  obtain ⟨init, relay, hinit, hn1, hn2⟩ := hpump
  have hb1 : Event.setAccess false ∉ preparation (presses junk).length (far ++ [d]) q ++ init := by
    intro h
    rcases List.mem_append.mp h with h | h
    · exact absurd (mem_preparation _ _ _ _ h).1 (by decide)
    · exact hn1 h
  have hb2 : Event.lcdPrint "Scan RFID or" ∉
      preparation (presses junk).length (far ++ [d]) q ++ init := by
    intro h
    rcases List.mem_append.mp h with h | h
    · exact (mem_preparation _ _ _ _ h).2 rfl
    · exact hn2 h
  refine ⟨_, preparation (presses junk).length (far ++ [d]) q ++ init, relay, hsess, rfl, ?_,
    hb1, hb2, ?_, ?_, ?_⟩
  · simp only [sessionEvents_eq, hinit]
    simp [List.append_assoc]
  · rw [List.count_append, List.count_append, List.count_eq_zero.mpr hb1]
    simp [promptEvents]
  · rw [List.count_append, List.count_append, List.count_eq_zero.mpr hb2]
    simp [promptEvents]
  · simp [loop]

/-- Instance of C8: key `9` rejected, then key `2` served: one reset, session locked. -/
theorem session_reset_once_witness :
    ∃ m1, showMenu (atMenu ['9', '2', '1'] [10, 2]) = .done m1 ∧ m1.accessGranted = false ∧
      List.count (Event.setAccess false) m1.trace = 1 := by
  obtain ⟨m1, body, relay, h1, h2, h3, -, -, h4, -⟩ :=
    session_reset_once (fun _ => 0) (atMenu ['9', '2', '1'] [10, 2]) ['9'] '2' ['1'] [10] 2 []
      1 [] rfl (by decide) rfl rfl (by decide) (by decide) rfl
  refine ⟨m1, h1, h2, ?_⟩
  rw [h3, show (atMenu ['9', '2', '1'] [10, 2]).trace = [] from rfl, List.nil_append]
  exact h4

/-! ## Digits left behind by the RFID path -/

/-- C9 (the code departs from the claim): from boot, the digits 1 2 are typed
and then the tag 01 02 03 04 is presented.  The tick that reads the tag ends
Denied ("Access Denied" shown, `accessGranted` false) and `enteredPassword`
still holds 1 2: the RFID path of `checkAccess` does not clear the digits,
which the claim requires to be empty after any denial. -/
theorem denied_tag_keeps_digits (ram : Nat → Nat) :
    (run ram 2 (boot [none, none] ['1', '2'] [])).machine.enteredPassword = ['1', '2'] ∧
    (run ram 3 (boot [none, none, some [0x01, 0x02, 0x03, 0x04]] ['1', '2'] [])).machine =
      checkAccess ram
        (run ram 2 (boot [none, none, some [0x01, 0x02, 0x03, 0x04]] ['1', '2'] [])).machine ∧
    (run ram 3 (boot [none, none, some [0x01, 0x02, 0x03, 0x04]] ['1', '2']
      [])).machine.accessGranted = false ∧
    Event.lcdPrint "Access Denied" ∈
      (run ram 3 (boot [none, none, some [0x01, 0x02, 0x03, 0x04]] ['1', '2'] [])).machine.trace ∧
    (run ram 3 (boot [none, none, some [0x01, 0x02, 0x03, 0x04]] ['1', '2']
      [])).machine.enteredPassword = ['1', '2'] ∧
    (checkAccess ram (typed12 [0x01, 0x02, 0x03, 0x04])).enteredPassword = ['1', '2'] ∧
    (checkAccess ram (typed12 [0x01, 0x02, 0x03, 0x04])).accessGranted = false := by
  refine ⟨rfl, rfl, rfl, ?_, rfl, rfl, rfl⟩
  simp [run, loop, boot, setup, powerUp, displayPrompt, checkAccess, checkPassword, pollCard,
    getKey, uidLoop, allowedUIDAt, allowedUID, Machine.emit, Outcome.bind, Outcome.machine,
    NO_KEY, deniedEvents]

/-- C10 (the code departs from the claim): from boot, the digits 1 2 are typed
and then the allowed tag is presented.  Access is granted and
`enteredPassword` still holds 1 2; after the dispense session the digits are
carried into the next attempt, so that typing 1 2 3 4 `#` is evaluated as
1 2 1 2 3 4 and denied, although the same keys from a fresh boot are granted. -/
theorem granted_tag_keeps_digits (ram : Nat → Nat) :
    (run ram 3 (boot [none, none, some allowedUID] ['1', '2'] [])).machine.accessGranted = true ∧
    (run ram 3 (boot [none, none, some allowedUID] ['1', '2'] [])).machine.enteredPassword
      = ['1', '2'] ∧
    (run ram 8 (boot [none, none, some allowedUID]
      ['1', '2', '1', '0', '1', '2', '3', '4', '#'] [2])).machine.enteredPassword
      = ['1', '2', '1', '2', '3', '4'] ∧
    (run ram 9 (boot [none, none, some allowedUID]
      ['1', '2', '1', '0', '1', '2', '3', '4', '#'] [2])).machine.accessGranted = false ∧
    (run ram 5 (boot [] ['1', '2', '3', '4', '#'] [])).machine.accessGranted = true := by
  refine ⟨rfl, rfl, rfl, rfl, rfl⟩

/-! ## Invalid menu keys -/

theorem count_serialEvents (u : List Nat) (e : Event)
    (h1 : ∀ s, e ≠ Event.serialPrint s) (h2 : ∀ b, e ≠ Event.serialPrintHex b) :
    (serialEvents u).count e = 0 := by
  rw [List.count_eq_zero]
  intro he
  simp only [serialEvents, List.mem_flatMap] at he
  obtain ⟨b, -, hb⟩ := he
  simp at hb
  rcases hb with rfl | rfl
  · exact h1 _ rfl
  · exact h2 _ rfl

theorem allowedUIDAt_lt (ram : Nat → Nat) (j : Nat) (h : j < 4) :
    allowedUIDAt ram j = allowedUID.getD j 0 := by
  interval_cases j <;> rfl

theorem uidAccepted_short (ram : Nat → Nat) (u : List Nat) (hlen : u.length ≤ 4) :
    UidAccepted ram u ↔ u = allowedUID.take u.length := by
  have hal : allowedUID.length = 4 := rfl
  constructor
  · intro h
    apply List.ext_getElem
    · simp [hal, hlen]
    · intro j h1 h2
      have hj := h j h1
      rw [allowedUIDAt_lt ram j (by omega)] at hj
      rw [List.getElem_take]
      rw [List.getD_eq_getElem _ _ (by omega)] at hj
      simpa using hj
  · intro h j hj
    rw [allowedUIDAt_lt ram j (by omega)]
    have h3 := congrArg (fun l => l.getD j 0) h
    simp only [List.getD_eq_getElem?_getD, List.getElem?_take, hj, if_true] at h3
    rw [List.getD_eq_getElem?_getD, ← h3]
    simp [List.getElem?_eq_getElem hj]

/-- C13: on a tick of `checkAccess` that reads a tag, the keypad is not
scanned (keys, digit buffer and distances are untouched, only the tag is
consumed), the card is halted exactly once, and exactly one verdict is shown:
"Access Granted" with one assignment `accessGranted = true` when every byte
of the UID matches, "Access Denied" with `accessGranted` unchanged otherwise.
The verdict is a function of the UID (for a UID of at most four bytes:
whether it is an initial segment of `allowedUID`).  The keypad path runs
exactly on the ticks where no tag is read. -/
theorem one_path_per_tick (ram : Nat → Nat) (m : Machine) :
    (∀ u cs, m.cards = some u :: cs →
      (checkAccess ram m).keys = m.keys ∧
      (checkAccess ram m).enteredPassword = m.enteredPassword ∧
      (checkAccess ram m).dists = m.dists ∧
      (checkAccess ram m).cards = cs ∧
      (u.length ≤ 4 → (UidAccepted ram u ↔ u = allowedUID.take u.length)) ∧
      ∃ evs, (checkAccess ram m).trace = m.trace ++ evs ∧
        evs.count Event.haltCard = 1 ∧
        ((UidAccepted ram u ∧ (checkAccess ram m).accessGranted = true ∧
            verdicts evs = (1, 0) ∧ evs.count (Event.setAccess true) = 1) ∨
          (¬ UidAccepted ram u ∧ (checkAccess ram m).accessGranted = m.accessGranted ∧
            verdicts evs = (0, 1) ∧ evs.count (Event.setAccess true) = 0))) ∧
    (m.cards = [] ∨ (∃ cs, m.cards = none :: cs) →
      checkAccess ram m = checkPassword { m with cards := m.cards.tail }) := by
  constructor
  · intro u cs hc
    by_cases hu : UidAccepted ram u
    · rw [checkAccess_card_granted ram m u cs hc hu]
      refine ⟨rfl, rfl, rfl, rfl, uidAccepted_short ram u, _, rfl, ?_, Or.inl ⟨hu, rfl, ?_, ?_⟩⟩
      · simp [List.count_cons, count_serialEvents, grantedEvents]
      · simp [verdicts, List.count_cons, count_serialEvents, grantedEvents]
      · simp [List.count_cons, count_serialEvents, grantedEvents]
    · rw [checkAccess_card_denied ram m u cs hc hu]
      refine ⟨rfl, rfl, rfl, rfl, uidAccepted_short ram u, _, rfl, ?_, Or.inr ⟨hu, rfl, ?_, ?_⟩⟩
      · simp [List.count_cons, count_serialEvents, deniedEvents, promptEvents]
      · simp [verdicts, List.count_cons, count_serialEvents, deniedEvents, promptEvents]
      · simp [List.count_cons, count_serialEvents, deniedEvents, promptEvents]
  · exact checkAccess_no_card ram m

/-- Instance of C13: the correct PIN is in the buffer and `#` is pressed while a
wrong tag is read: the key is not consumed and access is not granted. -/
theorem one_path_per_tick_witness :
    (checkAccess (fun _ => 0)
      { typing password ['#'] with cards := [some [0x01, 0x02, 0x03, 0x04]] }).keys = ['#'] ∧
    (checkAccess (fun _ => 0)
      { typing password ['#'] with cards := [some [0x01, 0x02, 0x03, 0x04]] }).accessGranted
      = false := by
  obtain ⟨h1, -, -, -, -, evs, -, -, h | h⟩ :=
    (one_path_per_tick (fun _ => 0)
      { typing password ['#'] with cards := [some [0x01, 0x02, 0x03, 0x04]] }).1
      [0x01, 0x02, 0x03, 0x04] [] rfl
  · exact absurd (h.1 0 (by decide)) (by decide)
  · exact ⟨h1, h.2.1⟩

/-! ## PIN entry over several ticks -/

theorem run_add (ram : Nat → Nat) (a b : Nat) : ∀ m : Machine,
    run ram (a + b) m = (run ram a m).bind (run ram b) := by
  induction a with
  | zero => intro m; simp [run, Outcome.bind]
  | succ a ih =>
    intro m
    rw [Nat.add_right_comm]
    simp only [run]
    cases loop ram m with
    | done m1 => simp only [Outcome.bind]; exact ih m1
    | blocked m1 => rfl

theorem loop_locked (ram : Nat → Nat) (m : Machine) (h : m.accessGranted = false) :
    loop ram m = .done (checkAccess ram m) := by
  simp [loop, h]

theorem loop_open (ram : Nat → Nat) (m : Machine) (h : m.accessGranted = true) :
    loop ram m = showMenu m := by
  simp [loop, h]

theorem checkAccess_idle (ram : Nat → Nat) (m : Machine)
    (hc : ∀ c ∈ m.cards, c = none) (hk : ∀ k ∈ m.keys, k = NO_KEY) :
    checkAccess ram m = { m with cards := m.cards.tail, keys := m.keys.tail } := by
  have hc2 : m.cards = [] ∨ ∃ cs, m.cards = none :: cs := by
    rcases h : m.cards with _ | ⟨c, cs⟩
    · exact Or.inl rfl
    · have := hc c (by simp [h])
      subst this
      exact Or.inr ⟨cs, rfl⟩
  rw [checkAccess_no_card ram m hc2]
  rcases h : m.keys with _ | ⟨k, ks⟩
  · simp [checkPassword, getKey, h]
  · have := hk k (by simp [h])
    subst this
    simp [checkPassword, getKey, h]

theorem run_idle (ram : Nat → Nat) (n : Nat) : ∀ m : Machine, m.accessGranted = false →
    (∀ c ∈ m.cards, c = none) → (∀ k ∈ m.keys, k = NO_KEY) →
    run ram n m = .done { m with cards := m.cards.drop n, keys := m.keys.drop n } := by
  induction n with
  | zero => intro m _ _ _; simp [run]
  | succ n ih =>
    intro m hl hc hk
    simp only [run, loop_locked ram m hl, Outcome.bind, checkAccess_idle ram m hc hk]
    have h1 : ∀ c ∈ m.cards.tail, c = none := fun c h => hc c (List.mem_of_mem_tail h)
    have h2 : ∀ k ∈ m.keys.tail, k = NO_KEY := fun k h => hk k (List.mem_of_mem_tail h)
    rw [ih { m with cards := m.cards.tail, keys := m.keys.tail } hl h1 h2]
    simp [List.drop_succ_cons, List.tail_drop]


theorem checkAccess_typed (ram : Nat → Nat) (m : Machine) (k : Char) (ks : List Char)
    (hc : ∀ c ∈ m.cards, c = none) (hk : m.keys = k :: ks) (h1 : k ≠ '#') (h2 : k ≠ '*') :
    checkAccess ram m =
      { m with
        cards := m.cards.tail, keys := ks,
        enteredPassword := m.enteredPassword ++ presses [k],
        trace := (checkAccess ram m).trace } := by
  have hc2 : m.cards = [] ∨ ∃ cs, m.cards = none :: cs := by
    rcases h : m.cards with _ | ⟨c, cs⟩
    · exact Or.inl rfl
    · have := hc c (by simp [h])
      subst this
      exact Or.inr ⟨cs, rfl⟩
  rw [checkAccess_no_card ram m hc2]
  by_cases h0 : k = NO_KEY
  · simp [checkPassword, getKey, hk, h0, presses]
  · simp [checkPassword, getKey, hk, h0, h1, h2, presses, Machine.emit]

theorem run_typing (ram : Nat → Nat) (rest : List Char) : ∀ (w : List Char) (m : Machine),
    m.accessGranted = false → (∀ c ∈ m.cards, c = none) → m.keys = w ++ rest →
    (∀ k ∈ w, k ≠ '#' ∧ k ≠ '*') →
    ∃ m1, run ram w.length m = .done m1 ∧ m1.accessGranted = false ∧
      m1.enteredPassword = m.enteredPassword ++ presses w ∧ m1.keys = rest ∧
      m1.cards = m.cards.drop w.length ∧ m1.dists = m.dists := by
  intro w
  induction w with
  | nil => intro m hl _ hk _; exact ⟨m, rfl, hl, by simp [presses], by simpa using hk, rfl, rfl⟩
  | cons k w ih =>
    intro m hl hc hk hw
    have hstep := checkAccess_typed ram m k (w ++ rest) hc (by simpa using hk)
      (hw k (by simp)).1 (hw k (by simp)).2
    simp only [List.length_cons, run, loop_locked ram m hl, Outcome.bind]
    rw [hstep]
    obtain ⟨m1, h1, h2, h3, h4, h5, h6⟩ := ih
      { m with
        cards := m.cards.tail, keys := w ++ rest,
        enteredPassword := m.enteredPassword ++ presses [k],
        trace := (checkAccess ram m).trace }
      hl (fun c h => hc c (List.mem_of_mem_tail h)) rfl (fun x hx => hw x (by simp [hx]))
    refine ⟨m1, h1, h2, ?_, h4, ?_, h6⟩
    · rw [h3]
      show m.enteredPassword ++ presses [k] ++ presses w = _
      rw [List.append_assoc, ← presses_append]; rfl
    · rw [h5]; simp [List.tail_drop, List.drop_succ_cons]

theorem checkAccess_submit (ram : Nat → Nat) (m : Machine) (ks : List Char)
    (hl : m.accessGranted = false) (hc : ∀ c ∈ m.cards, c = none) (hk : m.keys = '#' :: ks) :
    ((checkAccess ram m).accessGranted = true ↔ m.enteredPassword = password) ∧
    (checkAccess ram m).enteredPassword = [] ∧ (checkAccess ram m).keys = ks := by
  have hc2 : m.cards = [] ∨ ∃ cs, m.cards = none :: cs := by
    rcases h : m.cards with _ | ⟨c, cs⟩
    · exact Or.inl rfl
    · have := hc c (by simp [h])
      subst this
      exact Or.inr ⟨cs, rfl⟩
  rw [checkAccess_no_card ram m hc2]
  have hne : ¬ ('#' = NO_KEY) := by decide
  by_cases hp : m.enteredPassword = password
  · simp [checkPassword, getKey, hk, hne, hp, Machine.assignAccess, Machine.emit]
  · simp [checkPassword, getKey, hk, hne, hp, hl, Machine.emit, displayPrompt]

theorem checkAccess_submit_granted (ram : Nat → Nat) (m : Machine) (ks : List Char)
    (hc : ∀ c ∈ m.cards, c = none) (hk : m.keys = '#' :: ks)
    (hp : m.enteredPassword = password) :
    checkAccess ram m =
      { accessGranted := true, enteredPassword := [], cards := m.cards.tail, keys := ks,
        dists := m.dists, trace := m.trace ++ grantedEvents } := by
  have hc2 : m.cards = [] ∨ ∃ cs, m.cards = none :: cs := by
    rcases h : m.cards with _ | ⟨c, cs⟩
    · exact Or.inl rfl
    · have := hc c (by simp [h])
      subst this
      exact Or.inr ⟨cs, rfl⟩
  rw [checkAccess_no_card ram m hc2]
  have hne : ¬ ('#' = NO_KEY) := by decide
  simp [checkPassword, getKey, hk, hne, hp, Machine.assignAccess, Machine.emit, grantedEvents]

/-- C15 (the claim fails as stated): from boot with no tag, the keys are
1 2 3 4 `#`, then 1 0 1 2 3 4, then `#`, with a cup at 2 cm.  The first `#`
is granted; the session reads the menu key 1 and the sugar key 0, which are
not appended to the digits; at the second `#` the buffer is 1 2 3 4, not the
keys 1 0 1 2 3 4 pressed since the most recent `#`, and access is granted. -/
theorem session_keys_not_in_buffer :
    ['1', '2', '3', '4', '#', '1', '0', '1', '2', '3', '4', '#'] =
      ['1', '2', '3', '4', '#'] ++ ['1', '0', '1', '2', '3', '4'] ++ ['#'] ∧
    '#' ∉ ['1', '0', '1', '2', '3', '4'] ∧ '*' ∉ ['1', '0', '1', '2', '3', '4'] ∧
    (run (fun _ => 0) 5 (boot [] ['1', '2', '3', '4', '#', '1', '0', '1', '2', '3', '4', '#']
      [2])).machine.accessGranted = true ∧
    (run (fun _ => 0) 10 (boot [] ['1', '2', '3', '4', '#', '1', '0', '1', '2', '3', '4', '#']
      [2])).machine.accessGranted = false ∧
    (run (fun _ => 0) 10 (boot [] ['1', '2', '3', '4', '#', '1', '0', '1', '2', '3', '4', '#']
      [2])).machine.keys = ['#'] ∧
    (run (fun _ => 0) 10 (boot [] ['1', '2', '3', '4', '#', '1', '0', '1', '2', '3', '4', '#']
      [2])).machine.enteredPassword = ['1', '2', '3', '4'] ∧
    ['1', '2', '3', '4'] ≠ ['1', '0', '1', '2', '3', '4'] ∧
    (run (fun _ => 0) 11 (boot [] ['1', '2', '3', '4', '#', '1', '0', '1', '2', '3', '4', '#']
      [2])).machine.accessGranted = true := by
  refine ⟨rfl, by decide, by decide, ?_, ?_, ?_, ?_, by decide, ?_⟩ <;> decide

/-- C15 (amended): on a locked machine with no tag presented, let the scans
be `w` followed by `#`, where `w` contains neither `#` nor `*`.  After the
ticks that read `w` the buffer is the old buffer followed by the keys pressed
in `w`; the tick that reads `#` grants access exactly when that buffer is the
password, and leaves the buffer empty either way.  From an empty buffer
(boot), after a `*`, after a denied `#`, and after a granted `#` followed by
its dispense session (whose menu and sugar keys are not appended), the buffer
evaluated is exactly the keys pressed on the authentication ticks since then,
so access is granted if and only if they are 1 2 3 4. -/
theorem pin_entry (ram : Nat → Nat) (m : Machine) (w rest : List Char)
    (hl : m.accessGranted = false) (hc : ∀ c ∈ m.cards, c = none)
    (hw : ∀ k ∈ w, k ≠ '#' ∧ k ≠ '*') :
    (m.keys = w ++ '#' :: rest →
      ∃ m1 m2, run ram w.length m = .done m1 ∧ m1.accessGranted = false ∧
        m1.enteredPassword = m.enteredPassword ++ presses w ∧
        run ram (w.length + 1) m = .done m2 ∧
        (m2.accessGranted = true ↔ m.enteredPassword ++ presses w = password) ∧
        (m.enteredPassword = [] → (m2.accessGranted = true ↔ presses w = password)) ∧
        m2.enteredPassword = [] ∧ m2.keys = rest) ∧
    (∀ x, x = '*' ∨ (x = '#' ∧ m.enteredPassword ≠ password) →
      m.keys = x :: (w ++ '#' :: rest) →
      ∃ m1 m2, run ram (w.length + 1) m = .done m1 ∧ m1.accessGranted = false ∧
        m1.enteredPassword = presses w ∧
        run ram (w.length + 2) m = .done m2 ∧
        (m2.accessGranted = true ↔ presses w = password) ∧
        m2.enteredPassword = [] ∧ m2.keys = rest) ∧
    (∀ junk c ks far d left q, m.enteredPassword = password →
      m.keys = '#' :: (junk ++ c :: ks) → (∀ j ∈ junk, isMenuKey j = false) →
      isMenuKey c = true → m.dists = far ++ d :: left → (∀ x ∈ far, 3 ≤ x) → d < 3 →
      sugarPick 3 ks = some (q, w ++ '#' :: rest) →
      ∃ m0 m1 m2, run ram 2 m = .done m0 ∧ m0.accessGranted = false ∧
        m0.enteredPassword = [] ∧ m0.keys = w ++ '#' :: rest ∧
        run ram (w.length + 2) m = .done m1 ∧ m1.accessGranted = false ∧
        m1.enteredPassword = presses w ∧
        run ram (w.length + 3) m = .done m2 ∧
        (m2.accessGranted = true ↔ presses w = password) ∧
        m2.enteredPassword = [] ∧ m2.keys = rest) ∧
    ((∀ k ∈ w, k ≠ NO_KEY) → presses w = w) := by
  have hpress : (∀ k ∈ w, k ≠ NO_KEY) → presses w = w := by
    intro h
    simp only [presses, List.filter_eq_self]
    intro k hk
    simpa using h k hk
  have main : ∀ m0 : Machine, m0.accessGranted = false → (∀ c ∈ m0.cards, c = none) →
      m0.keys = w ++ '#' :: rest →
      ∃ m1 m2, run ram w.length m0 = .done m1 ∧ m1.accessGranted = false ∧
        m1.enteredPassword = m0.enteredPassword ++ presses w ∧
        run ram (w.length + 1) m0 = .done m2 ∧
        (m2.accessGranted = true ↔ m0.enteredPassword ++ presses w = password) ∧
        m2.enteredPassword = [] ∧ m2.keys = rest := by
    intro m0 hl0 hc0 hk0
    obtain ⟨m1, h1, h2, h3, h4, h5, -⟩ := run_typing ram ('#' :: rest) w m0 hl0 hc0 hk0 hw
    have hc1 : ∀ c ∈ m1.cards, c = none := by
      intro c hmem
      rw [h5] at hmem
      exact hc0 c (List.mem_of_mem_drop hmem)
    obtain ⟨s1, s2, s3⟩ := checkAccess_submit ram m1 rest h2 hc1 h4
    refine ⟨m1, checkAccess ram m1, h1, h2, h3, ?_, ?_, s2, s3⟩
    · rw [run_add, h1]
      simp [Outcome.bind, run, loop_locked ram m1 h2]
    · rw [s1, h3]
  refine ⟨?_, ?_, ?_, hpress⟩
  · intro hk
    obtain ⟨m1, m2, h1, h2, h3, h4, h5, h6, h7⟩ := main m hl hc hk
    exact ⟨m1, m2, h1, h2, h3, h4, h5, fun he => by rw [h5, he]; simp, h6, h7⟩
  · intro x hx hk
    have hfirst : (checkAccess ram m).accessGranted = false ∧
        (checkAccess ram m).enteredPassword = [] ∧
        (checkAccess ram m).keys = w ++ '#' :: rest ∧
        ∀ c ∈ (checkAccess ram m).cards, c = none := by
      have hc2 : m.cards = [] ∨ ∃ cs, m.cards = none :: cs := by
        rcases h : m.cards with _ | ⟨c, cs⟩
        · exact Or.inl rfl
        · have := hc c (by simp [h])
          subst this
          exact Or.inr ⟨cs, rfl⟩
      have hct : ∀ c ∈ m.cards.tail, c = none := fun c h => hc c (List.mem_of_mem_tail h)
      rw [checkAccess_no_card ram m hc2]
      rcases hx with rfl | ⟨rfl, hp⟩
      · have hne : ¬ ('*' = NO_KEY) := by decide
        have hne2 : ¬ ('*' = '#') := by decide
        simpa [checkPassword, getKey, hk, hne, hne2, hl, displayPrompt, Machine.emit] using hct
      · have hne : ¬ ('#' = NO_KEY) := by decide
        simpa [checkPassword, getKey, hk, hne, hp, hl, displayPrompt, Machine.emit] using hct
    obtain ⟨f1, f2, f3, f4⟩ := hfirst
    obtain ⟨m1, m2, h1, h2, h3, h4, h5, h6, h7⟩ := main (checkAccess ram m) f1 f4 f3
    refine ⟨m1, m2, ?_, h2, by rw [h3, f2]; simp, ?_, by rw [h5, f2]; simp, h6, h7⟩
    · rw [Nat.add_comm, run_add]
      simp only [run, loop_locked ram m hl, Outcome.bind]
      exact h1
    · rw [show w.length + 2 = 1 + (w.length + 1) by omega, run_add]
      simp only [run, loop_locked ram m hl, Outcome.bind]
      exact h4
  · intro junk c ks far d left q hp hk hjunk hc1 hd hfar hlt hs
    have hgrant := checkAccess_submit_granted ram m (junk ++ c :: ks) hc hk hp
    have hsess := showMenu_session
      { accessGranted := true, enteredPassword := [], cards := m.cards.tail,
        keys := junk ++ c :: ks, dists := m.dists, trace := m.trace ++ grantedEvents }
      junk c ks far d left q (w ++ '#' :: rest) rfl hjunk hc1 hd
      (fun x hx => not_lt.mpr (hfar x hx)) hlt hs
    have hct : ∀ c ∈ m.cards.tail, c = none := fun c h => hc c (List.mem_of_mem_tail h)
    have h2 : run ram 2 m = .done
        { accessGranted := false, enteredPassword := [], cards := m.cards.tail,
          keys := w ++ '#' :: rest, dists := left,
          trace := m.trace ++ grantedEvents ++
            sessionEvents (presses junk).length c (far ++ [d]) q } := by
      simp only [run, loop_locked ram m hl, Outcome.bind, hgrant]
      rw [loop_open ram _ rfl, hsess]
    obtain ⟨m1, m2, h3, h4, h5, h6, h7, h8, h9⟩ := main
      { accessGranted := false, enteredPassword := [], cards := m.cards.tail,
        keys := w ++ '#' :: rest, dists := left,
        trace := m.trace ++ grantedEvents ++
          sessionEvents (presses junk).length c (far ++ [d]) q } rfl hct rfl
    refine ⟨_, m1, m2, h2, rfl, rfl, rfl, ?_, h4, by simpa using h5, ?_, by simpa using h7,
      h8, h9⟩
    · rw [Nat.add_comm, run_add, h2]
      exact h3
    · rw [show w.length + 3 = 2 + (w.length + 1) by omega, run_add, h2]
      exact h6

/-- Instance of C15 (amended): 1 2 3 4 `#` is granted, 1 2 3 5 `#` is denied
with the digits cleared, 9 9 `*` 1 2 3 4 `#` is granted, and after a granted
`#` and a session with menu key 1 and sugar key 0, 1 2 3 4 `#` is granted. -/
theorem pin_entry_witness :
    (∃ m2, run (fun _ => 0) 5 (typing [] ['1', '2', '3', '4', '#']) = .done m2 ∧
      m2.accessGranted = true ∧ m2.enteredPassword = []) ∧
    (∃ m2, run (fun _ => 0) 5 (typing [] ['1', '2', '3', '5', '#']) = .done m2 ∧
      m2.accessGranted = false ∧ m2.enteredPassword = []) ∧
    (∃ m2, run (fun _ => 0) 6 (typing ['9', '9'] ['*', '1', '2', '3', '4', '#']) = .done m2 ∧
      m2.accessGranted = true) ∧
    (∃ m2, run (fun _ => 0) 7
        { typing password ['#', '1', '0', '1', '2', '3', '4', '#'] with dists := [2] }
        = .done m2 ∧
      m2.accessGranted = true) := by
  refine ⟨?_, ?_, ?_, ?_⟩
  · obtain ⟨m1, m2, -, -, -, h4, -, h5, h6, -⟩ :=
      (pin_entry (fun _ => 0) (typing [] ['1', '2', '3', '4', '#']) ['1', '2', '3', '4'] []
        rfl (by decide) (by decide)).1 rfl
    exact ⟨m2, h4, (h5 rfl).mpr rfl, h6⟩
  · obtain ⟨m1, m2, -, -, -, h4, -, h5, h6, -⟩ :=
      (pin_entry (fun _ => 0) (typing [] ['1', '2', '3', '5', '#']) ['1', '2', '3', '5'] []
        rfl (by decide) (by decide)).1 rfl
    refine ⟨m2, h4, ?_, h6⟩
    cases hg : m2.accessGranted with
    | false => rfl
    | true => exact absurd ((h5 rfl).mp hg) (by decide)
  · obtain ⟨m1, m2, -, -, -, h4, h5, -, -⟩ :=
      (pin_entry (fun _ => 0) (typing ['9', '9'] ['*', '1', '2', '3', '4', '#'])
        ['1', '2', '3', '4'] [] rfl (by decide) (by decide)).2.1 '*' (Or.inl rfl) rfl
    exact ⟨m2, h4, h5.mpr rfl⟩
  · obtain ⟨m0, m1, m2, -, -, -, -, -, -, -, h4, h5, -, -⟩ :=
      (pin_entry (fun _ => 0)
        { typing password ['#', '1', '0', '1', '2', '3', '4', '#'] with dists := [2] }
        ['1', '2', '3', '4'] [] rfl (by decide) (by decide)).2.2.1
        [] '1' ['0', '1', '2', '3', '4', '#'] [] 2 [] 0 rfl rfl (by decide) rfl rfl
        (by decide) (by decide) rfl
    exact ⟨m2, h4, h5.mpr rfl⟩

/-! ## No double grant -/

theorem checkPassword_grant (m : Machine) (hl : m.accessGranted = false) :
    ∃ evs, (checkPassword m).trace = m.trace ++ evs ∧
      evs.count (Event.setAccess true) ≤ 1 ∧
      (evs.count (Event.setAccess true) = 1 ↔ (checkPassword m).accessGranted = true) ∧
      ((checkPassword m).accessGranted = true ↔
        ∃ ks, m.keys = '#' :: ks ∧ m.enteredPassword = password) := by
  rcases hk : m.keys with _ | ⟨k, ks⟩
  · exact ⟨[], by simp [checkPassword, getKey, hk, hl]⟩
  · by_cases h0 : k = NO_KEY
    · subst h0
      have hne : ¬ (NO_KEY = '#') := by decide
      exact ⟨[], by simp [checkPassword, getKey, hk, hl, hne]⟩
    · by_cases h1 : k = '#'
      · subst h1
        by_cases hp : m.enteredPassword = password
        · exact ⟨[.setAccess true, .lcdClear, .lcdPrint "Access Granted", .delay 2000, .lcdClear],
            by simp [checkPassword, getKey, hk, h0, hp, Machine.assignAccess, Machine.emit]⟩
        · exact ⟨deniedEvents ++ promptEvents,
            by simp [checkPassword, getKey, hk, h0, hp, hl, Machine.emit, displayPrompt,
              deniedEvents, promptEvents]⟩
      · by_cases h2 : k = '*'
        · subst h2
          have hne : ¬ ('*' = NO_KEY) := by decide
          have hne2 : ¬ ('*' = '#') := by decide
          exact ⟨promptEvents,
            by simp [checkPassword, getKey, hk, hne, hne2, hl, Machine.emit, displayPrompt,
              promptEvents]⟩
        · refine ⟨[.lcdClear, .lcdSetCursor 6 1] ++
            List.replicate (m.enteredPassword.length + 1) (.lcdPrintChar '*'), ?_⟩
          have hc : List.count (Event.setAccess true)
              (List.replicate (m.enteredPassword.length + 1) (Event.lcdPrintChar '*')) = 0 := by
            rw [List.count_eq_zero]
            intro hmem
            have := List.eq_of_mem_replicate hmem
            simp at this
          simp [checkPassword, getKey, hk, h0, h1, h2, hl, Machine.emit, List.count_cons, hc]

theorem count_grant_sessionEvents (n : Nat) (c : Char) (ds : List Int) (q : Nat)
    (hc : isMenuKey c = true) :
    (sessionEvents n c ds q).count (Event.setAccess true) = 0 := by
  rw [List.count_eq_zero, sessionEvents_eq]
  intro h
  simp only [List.mem_append] at h
  rcases h with (h | h) | h
  · exact absurd (mem_preparation _ _ _ _ h).1 (by decide)
  · simp only [isMenuKey, Bool.or_eq_true, decide_eq_true_eq] at hc
    rcases hc with ((rfl | rfl) | rfl) | rfl <;> revert h <;> decide
  · revert h; decide

/-- C14: a tick of `checkAccess` on a locked machine assigns
`accessGranted = true` at most once, and exactly when its one input event is
granted: the tag read is accepted, or no tag is read, the key is `#` and the
buffer is the password.  From an authenticated state, the dispense session
followed by any number of ticks without tag and without key ends locked and
contains no further grant; from any locked state such ticks change nothing
but the consumed polls. -/
theorem no_double_grant (ram : Nat → Nat) :
    (∀ m : Machine, m.accessGranted = false →
      ∃ evs, (checkAccess ram m).trace = m.trace ++ evs ∧
        evs.count (Event.setAccess true) ≤ 1 ∧
        (evs.count (Event.setAccess true) = 1 ↔ (checkAccess ram m).accessGranted = true) ∧
        ((checkAccess ram m).accessGranted = true ↔
          (∃ u cs, m.cards = some u :: cs ∧ UidAccepted ram u) ∨
          ((m.cards = [] ∨ ∃ cs, m.cards = none :: cs) ∧
            ∃ ks, m.keys = '#' :: ks ∧ m.enteredPassword = password))) ∧
    (∀ (m : Machine) junk c ks far d rest q ks1 n, m.accessGranted = true →
      m.keys = junk ++ c :: ks → (∀ j ∈ junk, isMenuKey j = false) → isMenuKey c = true →
      m.dists = far ++ d :: rest → (∀ x ∈ far, 3 ≤ x) → d < 3 →
      sugarPick 3 ks = some (q, ks1) →
      (∀ x ∈ m.cards, x = none) → (∀ k ∈ ks1, k = NO_KEY) →
      ∃ m1 evs, run ram (n + 1) m = .done m1 ∧ m1.accessGranted = false ∧
        m1.trace = m.trace ++ evs ∧ evs.count (Event.setAccess true) = 0) ∧
    (∀ (m : Machine) n, m.accessGranted = false → (∀ x ∈ m.cards, x = none) →
      (∀ k ∈ m.keys, k = NO_KEY) →
      run ram n m = .done { m with cards := m.cards.drop n, keys := m.keys.drop n }) := by
  refine ⟨?_, ?_, ?_⟩
  · intro m hl
    rcases hc : m.cards with _ | ⟨c, cs⟩
    · have hno : m.cards = [] ∨ ∃ cs, m.cards = none :: cs := Or.inl hc
      rw [checkAccess_no_card ram m hno]
      obtain ⟨evs, h1, h2, h3, h4⟩ := checkPassword_grant { m with cards := m.cards.tail } hl
      exact ⟨evs, h1, h2, h3, by rw [h4]; simp [hc]⟩
    · cases c with
      | none =>
        have hno : m.cards = [] ∨ ∃ cs, m.cards = none :: cs := Or.inr ⟨cs, hc⟩
        rw [checkAccess_no_card ram m hno]
        obtain ⟨evs, h1, h2, h3, h4⟩ := checkPassword_grant { m with cards := m.cards.tail } hl
        exact ⟨evs, h1, h2, h3, by rw [h4]; simp [hc]⟩
      | some u =>
        by_cases hu : UidAccepted ram u
        · rw [checkAccess_card_granted ram m u cs hc hu]
          refine ⟨_, rfl, ?_, ?_, ?_⟩
          · simp [List.count_cons, count_serialEvents, grantedEvents]
          · simp [List.count_cons, count_serialEvents, grantedEvents]
          · simp [hu]
        · rw [checkAccess_card_denied ram m u cs hc hu]
          refine ⟨_, rfl, ?_, ?_, ?_⟩
          · simp [List.count_cons, count_serialEvents, deniedEvents, promptEvents]
          · simp [List.count_cons, count_serialEvents, deniedEvents, promptEvents, hl]
          · simp [hu, hl]
  · intro m junk c ks far d rest q ks1 n hg hk hjunk hc hd hfar hlt hs hcards hidle
    have hsess := showMenu_session m junk c ks far d rest q ks1 hk hjunk hc hd
      (fun x hx => not_lt.mpr (hfar x hx)) hlt hs
    rw [Nat.add_comm, run_add]
    simp only [run, loop_open ram m hg, hsess, Outcome.bind]
    rw [run_idle ram n
      { accessGranted := false, enteredPassword := m.enteredPassword, cards := m.cards,
        keys := ks1, dists := rest,
        trace := m.trace ++ sessionEvents (presses junk).length c (far ++ [d]) q }
      rfl hcards hidle]
    exact ⟨_, _, rfl, rfl, rfl, count_grant_sessionEvents _ _ _ _ hc⟩
  · intro m n hl hc hk
    exact run_idle ram n m hl hc hk

/-- Instance of C14: from boot, the allowed tag, one coffee session and five idle
ticks: one grant in the whole run, locked at the end. -/
theorem no_double_grant_witness :
    ∃ m1 evs, run (fun _ => 0) 7 (boot [some allowedUID] ['1', '0'] [2]) = .done m1 ∧
      m1.accessGranted = false ∧
      m1.trace = (boot [some allowedUID] ['1', '0'] [2]).trace ++ evs ∧
      evs.count (Event.setAccess true) = 1 := by
  obtain ⟨h1, h2, -⟩ := no_double_grant (fun _ => 0)
  obtain ⟨e1, ht1, -, hc1, -⟩ := h1 (boot [some allowedUID] ['1', '0'] [2]) rfl
  obtain ⟨m1, e2, hr, hl, ht2, hc2⟩ :=
    h2 (checkAccess (fun _ => 0) (boot [some allowedUID] ['1', '0'] [2]))
      [] '1' ['0'] [] 2 [] 0 [] 5 rfl rfl (by decide) rfl rfl (by decide) (by decide) rfl
      (by decide) (by decide)
  refine ⟨m1, e1 ++ e2, ?_, hl, ?_, ?_⟩
  · rw [show (7 : Nat) = 1 + (5 + 1) from rfl, run_add]
    exact hr
  · rw [ht2, ht1, List.append_assoc]
  · rw [List.count_append, hc2, hc1.mpr rfl]

/-! ## End to end -/

theorem uidAccepted_allowed (ram : Nat → Nat) : UidAccepted ram allowedUID :=
  (uidAccepted_short ram allowedUID (by decide)).mpr rfl

theorem actuations_append (a b : List Event) :
    actuations (a ++ b) = actuations a ++ actuations b := by
  simp [actuations]

theorem actuations_sugarCycles (n : Nat) :
    actuations (sugarCycles n) =
      (List.replicate n [Event.servoWrite 180, Event.servoWrite 0]).flatten := by
  induction n with
  | zero => rfl
  | succ n ih =>
    rw [sugarCycles, actuations_append, ih, List.replicate_succ, List.flatten_cons]
    rfl

theorem actuations_placeEvents (ds : List Int) : actuations (placeEvents ds) = [] := by
  rw [actuations, List.filter_eq_nil_iff]
  intro e he
  simp [placeEvents_quiet ds e he]

theorem actuations_recipe (c : Char) (hc : isMenuKey c = true) :
    actuations (recipeEvents (recipe c)) =
      (recipe c).flatMap fun p =>
        [Event.digitalWrite p.relay true, Event.digitalWrite p.relay false] := by
  simp only [isMenuKey, Bool.or_eq_true, decide_eq_true_eq] at hc
  rcases hc with ((rfl | rfl) | rfl) | rfl <;> rfl

/-- C16: for every menu key `c` in `1`..`4`, sugar key `qk` in `0`..`3` and
distance `d` below 3, two iterations of the main loop from boot with the
allowed tag presented, then `c`, the reading `d` and `qk`, return locked and
issue exactly: the grant, the menu, "Place a glass" and the measurement, the
sugar prompt, `qk` gate cycles, the pump steps of the recipe of `c` in order,
and one reset to the idle prompt.  The actuator commands are the servo writes
of the cycles followed by the relay writes of the recipe; nothing before the
measurement moves an actuator. -/
theorem end_to_end (ram : Nat → Nat) (c qk : Char) (d : Int)
    (cs : List (Option (List Nat))) (ks : List Char) (ds : List Int)
    (hc : isMenuKey c = true) (hq : isSugarKey qk = true) (hd : d < 3) :
    run ram 2 (boot (some allowedUID :: cs) (c :: qk :: ks) (d :: ds)) = .done
      { accessGranted := false, enteredPassword := [], cards := cs, keys := ks, dists := ds,
        trace := (boot (some allowedUID :: cs) (c :: qk :: ks) (d :: ds)).trace ++
          (tagGrantEvents ++ sessionEvents 0 c [d] (qk.toNat - '0'.toNat)) } ∧
    actuations (tagGrantEvents ++ sessionEvents 0 c [d] (qk.toNat - '0'.toNat)) =
      (List.replicate (qk.toNat - '0'.toNat)
        [Event.servoWrite 180, Event.servoWrite 0]).flatten ++
      ((recipe c).flatMap fun p =>
        [Event.digitalWrite p.relay true, Event.digitalWrite p.relay false]) ∧
    (∃ pre post, tagGrantEvents ++ sessionEvents 0 c [d] (qk.toNat - '0'.toNat) =
        pre ++ Event.ranging d :: post ∧ actuations pre = [] ∧
        post = Event.delay 100 :: ([.lcdClear, .lcdPrint "Adding Sugar...", .lcdClear,
          .lcdPrint "Sugar Qty (0-3):"] ++ sugarCycles (qk.toNat - '0'.toNat) ++
          recipeEvents (recipe c) ++ Event.setAccess false :: promptEvents)) ∧
    (tagGrantEvents ++ sessionEvents 0 c [d] (qk.toNat - '0'.toNat)).count
      (Event.setAccess false) = 1 := by
  have hsel : sugarPick 3 (qk :: ks) = some (qk.toNat - '0'.toNat, ks) :=
    sugarPick_select qk ks hq [] 3 (by simp [presses]) (by simp)
  refine ⟨?_, ?_, ?_, ?_⟩
  · have h1 := checkAccess_card_granted ram (boot (some allowedUID :: cs) (c :: qk :: ks)
      (d :: ds)) allowedUID cs rfl (uidAccepted_allowed ram)
    simp only [run, loop_locked ram (boot (some allowedUID :: cs) (c :: qk :: ks) (d :: ds)) rfl,
      Outcome.bind, h1]
    rw [loop_open ram _ rfl]
    rw [showMenu_session _ [] c (qk :: ks) [] d ds (qk.toNat - '0'.toNat) ks rfl (by simp) hc rfl
      (by simp) hd hsel]
    simp [presses, tagGrantEvents, List.append_assoc]
    rfl
  · simp only [sessionEvents, actuations_append, actuations_sugarCycles,
      actuations_placeEvents, actuations_recipe c hc]
    simp [actuations, tagGrantEvents, serialEvents, grantedEvents, allowedUID, menuEvents,
      invalidRounds, promptEvents, Event.isActuation]
  · refine ⟨tagGrantEvents ++ menuEvents ++ [.lcdClear, .lcdPrint "Place a glass"], _, ?_, ?_,
      rfl⟩
    · simp [sessionEvents, invalidRounds, placeEvents, List.append_assoc]
    · rfl
  · have hz : (sessionEvents 0 c [d] (qk.toNat - '0'.toNat)).count (Event.setAccess false)
        = 1 := by
      rw [sessionEvents_eq, List.count_append, List.count_append]
      have h1 : (preparation 0 [d] (qk.toNat - '0'.toNat)).count (Event.setAccess false) = 0 := by
        rw [List.count_eq_zero]
        intro h
        exact absurd (mem_preparation _ _ _ _ h).1 (by decide)
      have h2 : (recipeEvents (recipe c)).count (Event.setAccess false) = 0 := by
        simp only [isMenuKey, Bool.or_eq_true, decide_eq_true_eq] at hc
        rcases hc with ((rfl | rfl) | rfl) | rfl <;> decide
      rw [h1, h2]
      decide
    rw [List.count_append, hz]
    decide

/-- Instance of C16: key `2`, distance 2, sugar key `1`: one gate cycle, then
the coffee relay, then the milk relay, then the reset. -/
theorem end_to_end_witness :
    run (fun _ => 0) 2 (boot [some allowedUID] ['2', '1'] [2]) = .done
      { accessGranted := false, enteredPassword := [], cards := [], keys := [], dists := [],
        trace := (boot [some allowedUID] ['2', '1'] [2]).trace ++
          (tagGrantEvents ++ sessionEvents 0 '2' [2] 1) } ∧
    actuations (tagGrantEvents ++ sessionEvents 0 '2' [2] 1) =
      [.servoWrite 180, .servoWrite 0, .digitalWrite relayCafe true,
       .digitalWrite relayCafe false, .digitalWrite relayLait true,
       .digitalWrite relayLait false] := by
  have h := end_to_end (fun _ => 0) '2' '1' 2 [] [] [] rfl rfl (by decide)
  exact ⟨h.1, h.2.1⟩

/-! ## Termination of a session -/

theorem first_split {α : Type} (p : α → Bool) : ∀ l : List α,
    (∀ x ∈ l, p x = false) ∨
      ∃ a c b, l = a ++ c :: b ∧ (∀ x ∈ a, p x = false) ∧ p c = true := by
  intro l
  induction l with
  | nil => exact Or.inl (by simp)
  | cons x xs ih =>
    cases hx : p x with
    | true => exact Or.inr ⟨[], x, xs, rfl, by simp, hx⟩
    | false =>
      rcases ih with h | ⟨a, c, b, h1, h2, h3⟩
      · exact Or.inl (by intro y hy; rcases List.mem_cons.mp hy with rfl | hy; exacts [hx, h y hy])
      · refine Or.inr ⟨x :: a, c, b, by simp [h1], ?_, h3⟩
        intro y hy
        rcases List.mem_cons.mp hy with rfl | hy
        exacts [hx, h2 y hy]

theorem showMenuFuel_no_menuKey : ∀ (keys : List Char) (fuel : Nat) (m : Machine),
    m.keys = keys → (∀ j ∈ keys, isMenuKey j = false) → keys.length < fuel →
    showMenuFuel fuel m = .blocked { m with keys := [], trace := m.trace ++
      (menuEvents ++ invalidRounds (presses keys).length) } := by
  intro keys
  induction keys with
  | nil =>
    intro fuel m hk _ hf
    obtain ⟨f, rfl⟩ : ∃ f, fuel = f + 1 := ⟨fuel - 1, by omega⟩
    simp [showMenuFuel, waitForKey, hk, scanForKey, presses, invalidRounds, Machine.emit]
  | cons j keys ih =>
    intro fuel m hk hall hf
    obtain ⟨f, rfl⟩ : ∃ f, fuel = f + 1 := ⟨fuel - 1, by omega⟩
    have hrest : ∀ x ∈ keys, isMenuKey x = false := fun x hx => hall x (by simp [hx])
    by_cases hj : j = NO_KEY
    · subst hj
      rw [showMenuFuel_blank f m keys hk, ih (f + 1) _ rfl hrest (by simp at hf; omega)]
      simp [presses]
    · rw [showMenuFuel_invalid f m j keys hk (hall j (by simp)) hj,
        ih f _ rfl hrest (by simpa using hf)]
      simp [presses, hj, invalidRounds]

theorem sugarPick_none_iff (ks : List Char) :
    sugarPick 3 ks = none ↔ (presses ks).length < 3 ∧ ∀ j ∈ ks, isSugarKey j = false := by
  constructor
  · intro h
    refine ⟨sugarPick_none 3 ks h, ?_⟩
    rcases first_split isSugarKey ks with hall | ⟨a, c, b, h1, h2, h3⟩
    · exact hall
    · exfalso
      have hlen : (presses a).length < 3 ∨ 3 ≤ (presses a).length := by omega
      rcases hlen with hlt | hge
      · rw [h1, sugarPick_select c b h3 a 3 hlt h2] at h
        simp at h
      · have := sugarPick_none 3 ks h
        rw [h1, presses_append] at this
        simp at this
        omega
  · rintro ⟨h1, h2⟩
    exact sugarPick_starved ks 3 h1 h2

theorem pourWith_sugar_blocked (es : List Event) (m : Machine) (far : List Int) (d : Int)
    (rest : List Int) (hd : m.dists = far ++ d :: rest) (hfar : ∀ x ∈ far, ¬ x < 3)
    (hlt : d < 3) (hs : sugarPick 3 m.keys = none) :
    pourWith es m = .blocked
      { accessGranted := m.accessGranted, enteredPassword := m.enteredPassword,
        cards := m.cards, keys := [], dists := rest,
        trace := m.trace ++ (placeEvents (far ++ [d]) ++
          [.lcdClear, .lcdPrint "Adding Sugar...", .lcdClear, .lcdPrint "Sugar Qty (0-3):"]) } := by
  unfold pourWith awaitGlass
  rw [awaitGlassFuel_done far d rest _ m hd hfar hlt (by rw [hd]; simp; omega)]
  simp only [Outcome.bind]
  rw [addSugar_blocked _ (by simpa using hs)]
  simp [Outcome.bind, Machine.emit]

/-- C17 (the claim fails as stated): the key stream contains the menu key `1`
and the distance stream contains the reading 2, below 3, yet `showMenu` does
not reach the session reset: with no further key pressed it waits in
`addSugar`, at the sugar prompt, with no pump run and `accessGranted` still
true.  The sugar stage alone, with no key pressed, waits as well. -/
theorem sugar_wait_blocks :
    isMenuKey '1' = true ∧ (2 : Int) < 3 ∧
    showMenu (atMenu ['1'] [2]) = .blocked
      { atMenu [] [] with
        trace := menuEvents ++ [.lcdClear, .lcdPrint "Place a glass", .ranging 2, .delay 100,
          .lcdClear, .lcdPrint "Adding Sugar...", .lcdClear, .lcdPrint "Sugar Qty (0-3):"] } ∧
    showMenu (atMenu ['1', 'A', 'B'] [2]) = .blocked
      { atMenu [] [] with
        trace := menuEvents ++ [.lcdClear, .lcdPrint "Place a glass", .ranging 2, .delay 100,
          .lcdClear, .lcdPrint "Adding Sugar...", .lcdClear, .lcdPrint "Sugar Qty (0-3):"] } ∧
    addSugar (atMenu [] []) = .blocked
      { atMenu [] [] with trace := [.lcdClear, .lcdPrint "Sugar Qty (0-3):"] } := by
  refine ⟨rfl, by decide, rfl, rfl, rfl⟩

/-- C17 (amended): if the scans contain a key in `1`..`4`, the readings contain
one below 3, and after the menu key a key in `0`..`3` is among the next three
keys pressed or three keys are pressed, then `showMenu` returns with the
session reset, having consumed exactly the scans up to the first menu key,
exactly the readings up to the first one below 3, and at most three further
key presses.  Once the cup wait and the sugar stage have returned the drink
routine returns; `addSugar` returns exactly when a key in `0`..`3` or three
keys are pressed.  `showMenu` keeps waiting in exactly three places: for a
menu key, for the cup, and for a sugar key. -/
theorem session_termination (m : Machine) :
    (∀ junk c ks far d rest, m.keys = junk ++ c :: ks → (∀ j ∈ junk, isMenuKey j = false) →
      isMenuKey c = true → m.dists = far ++ d :: rest → (∀ x ∈ far, 3 ≤ x) → d < 3 →
      ¬ ((presses ks).length < 3 ∧ ∀ j ∈ ks, isSugarKey j = false) →
      ∃ q used ks1, ks = used ++ ks1 ∧ (presses used).length ≤ 3 ∧ q ≤ 3 ∧
        showMenu m = .done
          { accessGranted := false, enteredPassword := m.enteredPassword, cards := m.cards,
            keys := ks1, dists := rest,
            trace := m.trace ++ sessionEvents (presses junk).length c (far ++ [d]) q }) ∧
    (∀ es m1 m2, awaitGlass m = .done m1 →
      addSugar (m1.emit [.lcdClear, .lcdPrint "Adding Sugar..."]) = .done m2 →
      pourWith es m = .done (sessionReset (m2.emit es))) ∧
    ((∃ m1, addSugar m = .done m1) ↔
      ¬ ((presses m.keys).length < 3 ∧ ∀ j ∈ m.keys, isSugarKey j = false)) ∧
    ((∀ j ∈ m.keys, isMenuKey j = false) →
      showMenu m = .blocked { m with keys := [], trace := m.trace ++
        (menuEvents ++ invalidRounds (presses m.keys).length) }) ∧
    (∀ junk c ks, m.keys = junk ++ c :: ks → (∀ j ∈ junk, isMenuKey j = false) →
      isMenuKey c = true → (∀ x ∈ m.dists, 3 ≤ x) →
      showMenu m = .blocked { m with keys := ks, dists := [], trace := m.trace ++
        (menuEvents ++ invalidRounds (presses junk).length) ++ placeEvents m.dists ++
        [.lcdClear, .lcdPrint "Place a glass"] }) ∧
    (∀ junk c ks far d rest, m.keys = junk ++ c :: ks → (∀ j ∈ junk, isMenuKey j = false) →
      isMenuKey c = true → m.dists = far ++ d :: rest → (∀ x ∈ far, 3 ≤ x) → d < 3 →
      (presses ks).length < 3 → (∀ j ∈ ks, isSugarKey j = false) →
      showMenu m = .blocked
        { accessGranted := m.accessGranted, enteredPassword := m.enteredPassword,
          cards := m.cards, keys := [], dists := rest,
          trace := m.trace ++ (menuEvents ++ invalidRounds (presses junk).length) ++
            (placeEvents (far ++ [d]) ++ [.lcdClear, .lcdPrint "Adding Sugar...", .lcdClear,
              .lcdPrint "Sugar Qty (0-3):"]) }) ∧
    (∀ m1, showMenu m = .blocked m1 →
      (∀ j ∈ m.keys, isMenuKey j = false) ∨ (∀ x ∈ m.dists, 3 ≤ x) ∨
      ∃ junk c ks, m.keys = junk ++ c :: ks ∧ (∀ j ∈ junk, isMenuKey j = false) ∧
        isMenuKey c = true ∧ (presses ks).length < 3 ∧ ∀ j ∈ ks, isSugarKey j = false) := by
  have hsel : ∀ junk c ks, m.keys = junk ++ c :: ks → (∀ j ∈ junk, isMenuKey j = false) →
      isMenuKey c = true →
      showMenu m = pourWith (recipeEvents (recipe c)) { m with keys := ks, trace := m.trace ++
        (menuEvents ++ invalidRounds (presses junk).length) } := by
    intro junk c ks hk hjunk hc
    exact showMenuFuel_select c ks hc junk (m.keys.length + 1) m hk hjunk (by rw [hk]; simp; omega)
  have hdone : ∀ junk c ks far d rest, m.keys = junk ++ c :: ks →
      (∀ j ∈ junk, isMenuKey j = false) → isMenuKey c = true → m.dists = far ++ d :: rest →
      (∀ x ∈ far, 3 ≤ x) → d < 3 →
      ¬ ((presses ks).length < 3 ∧ ∀ j ∈ ks, isSugarKey j = false) →
      ∃ q used ks1, ks = used ++ ks1 ∧ (presses used).length ≤ 3 ∧ q ≤ 3 ∧
        showMenu m = .done
          { accessGranted := false, enteredPassword := m.enteredPassword, cards := m.cards,
            keys := ks1, dists := rest,
            trace := m.trace ++ sessionEvents (presses junk).length c (far ++ [d]) q } := by
    intro junk c ks far d rest hk hjunk hc hd hfar hlt hsugar
    cases hp : sugarPick 3 ks with
    | none => exact absurd ((sugarPick_none_iff ks).mp hp) hsugar
    | some p =>
      obtain ⟨q, ks1⟩ := p
      obtain ⟨used, hu, hl⟩ := sugarPick_used 3 ks q ks1 hp
      exact ⟨q, used, ks1, hu, hl, sugarPick_le 3 ks q ks1 hp,
        showMenu_session m junk c ks far d rest q ks1 hk hjunk hc hd
          (fun x hx => not_lt.mpr (hfar x hx)) hlt hp⟩
  refine ⟨hdone, ?_, ?_, ?_, ?_, ?_, ?_⟩
  · intro es m1 m2 h1 h2
    simp [pourWith, h1, h2, Outcome.bind]
  · constructor
    · rintro ⟨m1, h⟩ hno
      rw [addSugar_blocked m ((sugarPick_none_iff _).mpr hno)] at h
      simp at h
    · intro h
      cases hp : sugarPick 3 m.keys with
      | none => exact absurd ((sugarPick_none_iff _).mp hp) h
      | some p => exact ⟨_, addSugar_done m p.1 p.2 hp⟩
  · intro hall
    exact showMenuFuel_no_menuKey m.keys _ m rfl hall (by omega)
  · intro junk c ks hk hjunk hc hall
    have h := pourWith_no_cup (recipeEvents (recipe c))
      { m with keys := ks, trace := m.trace ++
        (menuEvents ++ invalidRounds (presses junk).length) } (by exact hall)
    rw [hsel junk c ks hk hjunk hc, h]
  · intro junk c ks far d rest hk hjunk hc hd hfar hlt hlen hno
    have h := pourWith_sugar_blocked (recipeEvents (recipe c))
      { m with keys := ks, trace := m.trace ++
        (menuEvents ++ invalidRounds (presses junk).length) } far d rest (by exact hd)
      (fun x hx => not_lt.mpr (hfar x hx)) hlt
      (by exact (sugarPick_none_iff ks).mpr ⟨hlen, hno⟩)
    rw [hsel junk c ks hk hjunk hc, h]
  · intro m1 hb
    rcases first_split isMenuKey m.keys with hall | ⟨junk, c, ks, hk, hjunk, hc⟩
    · exact Or.inl hall
    · rcases first_split (fun x : Int => decide (x < 3)) m.dists with hfar | ⟨far, d, rest, hd, hfar, hlt⟩
      · exact Or.inr (Or.inl (fun x hx => by simpa using hfar x hx))
      · by_cases hsugar : (presses ks).length < 3 ∧ ∀ j ∈ ks, isSugarKey j = false
        · exact Or.inr (Or.inr ⟨junk, c, ks, hk, hjunk, hc, hsugar.1, hsugar.2⟩)
        · obtain ⟨q, used, ks1, -, -, -, hdn⟩ := hdone junk c ks far d rest hk hjunk hc hd
            (fun x hx => by simpa using hfar x hx) (by simpa using hlt) hsugar
          rw [hdn] at hb
          simp at hb

/-- Instance of C17 (amended): key `9` rejected, key `2`, cup on the second
reading, sugar key `1` after `A`: the session returns locked and leaves the
reading 5 unread. -/
theorem session_termination_witness :
    ∃ m1, showMenu (atMenu ['9', '2', 'A', '1', '7'] [10, 2, 5]) = .done m1 ∧
      m1.accessGranted = false ∧ m1.dists = [5] := by
  obtain ⟨q, used, ks1, -, -, -, h4⟩ :=
    (session_termination (atMenu ['9', '2', 'A', '1', '7'] [10, 2, 5])).1
      ['9'] '2' ['A', '1', '7'] [10] 2 [5] rfl (by decide) rfl rfl (by decide) (by decide)
      (by decide)
  exact ⟨_, h4, rfl, rfl⟩

end CoffeeMachine
